import Mathlib

/-!
Shallow embedding of the `padlockd` blockchain core
(`src/padlock-blockchain/src/lib.rs`, `src/padlock-blockchain/src/block.rs`,
`src/padlock-blockchain/merkle_tree/src/lib.rs`,
`src/padlock-blockchain/merkle_tree/src/merkle_proof.rs`).

Modelling conventions:
* `u8` byte strings are `List Nat` (each element a byte value).
* External cryptographic primitives (blake2b, the RandomX hash, BLS parsing
  and aggregate verification) are opaque to the crate, so they are passed in
  as explicit function parameters bundled in a `Crypto` structure.  Every
  theorem quantifying over them therefore holds for the real primitives.
* `f32` is kept abstract: all float-typed header/state fields live in a type
  `F` and every float operation the source performs goes through an explicit
  `FloatOps F` dictionary.  Theorems that quantify over `FloatOps` hold in
  particular for genuine IEEE `f32` arithmetic.  Concrete witnesses
  instantiate `F` with exact (unnormalized) fractions; every concrete value
  used in a witness or counterexample is a small integer (or a dyadic
  rational), on which `f32` arithmetic is exact, so the instantiated runs
  agree step by step with the Rust code.
* Rust panics (index out of bounds, `unwrap` of `None`, arithmetic overflow
  in debug builds, and the non-terminating loop `MerkleTree::new(&[])`) are
  modelled as `Option.none` of an `Option`-valued result.
-/

deriving instance DecidableEq for Except

/-- Byte strings: each element is one `u8` value. -/
abbrev Bytes := List Nat

/-- `n.to_le_bytes()` truncated/zero-extended to `k` bytes (little endian). -/
def natToLE (k n : Nat) : Bytes :=
  match k with
  | 0 => []
  | k + 1 => n % 256 :: natToLE k (n / 256)

/-- `u64::from_le_bytes` (on genuine byte values; all inputs in this
development are bytes). -/
def leToNat : Bytes → Nat
  | [] => 0
  | b :: r => b + 256 * leToNat r

/-- `u8::leading_zeros()` for a byte value. -/
def lz8 (b : Nat) : Nat :=
  if 128 ≤ b then 0 else if 64 ≤ b then 1 else if 32 ≤ b then 2
  else if 16 ≤ b then 3 else if 8 ≤ b then 4 else if 4 ≤ b then 5
  else if 2 ≤ b then 6 else if 1 ≤ b then 7 else 8

/- ------------------------------------------------------------------ -/
/- Entry codec (`block.rs`, `Entry`)                                   -/
/- ------------------------------------------------------------------ -/

/-- `BlockErrorKind` of `block.rs` (the wrapped-source `Other` case is a
single constructor because the engine only dispatches on the kind). -/
inductive BlockErr
  | NoPublicKeyFound
  | InvalidSignature
  | TooManyCoinfileHashes
  | PoWTooLong
  | Other
  deriving DecidableEq, Repr

/-- `Entry` of `block.rs`. -/
structure Entry where
  coinfile_hashes : List Bytes
  output_hash : Bytes
  public_key : Option Bytes
  public_key_index : Option Nat
  proof_of_work : Bytes
  deriving DecidableEq, Repr

/-- `Entry::to_bytes`. -/
def Entry.toBytes (e : Entry) : Except BlockErr Bytes :=
  if 255 < e.coinfile_hashes.length then .error .TooManyCoinfileHashes
  else
    let coinfileBytes := e.coinfile_hashes.flatten
    match
      (match e.public_key with
       | some pk => some (0, pk)
       | none =>
         match e.public_key_index with
         | some idx => some (1, natToLE 8 idx)
         | none => none) with
    | none => .error .NoPublicKeyFound
    | some (disc, pkBytes) =>
      if 255 < e.proof_of_work.length then .error .PoWTooLong
      else
        .ok ([e.coinfile_hashes.length] ++ coinfileBytes ++ e.output_hash ++
             [disc] ++ pkBytes ++ [e.proof_of_work.length] ++ e.proof_of_work)

/-- Reads `count` chunks of 8 bytes from the stream
(`(&mut bytes).take(8)` + `try_into().unwrap()` per chunk; a chunk shorter
than 8 bytes makes the `unwrap` panic, modelled as `none`). -/
def readChunks8 (count : Nat) (bs : Bytes) : Option (List Bytes × Bytes) :=
  match count with
  | 0 => some ([], bs)
  | n + 1 =>
    if bs.length < 8 then none
    else do
      let (rest, tail) ← readChunks8 n (bs.drop 8)
      pure (bs.take 8 :: rest, tail)

/-- `Entry::from_bytes`.  The source never returns `Err`; each `unwrap`
that can fire on a short input is modelled as `none` (panic). -/
def Entry.fromBytes (bs : Bytes) : Option Entry :=
  match bs with
  | [] => none          -- bytes.next().unwrap() on the length byte
  | cfLen :: rest => do
    let (coinfiles, rest) ← readChunks8 cfLen rest
    -- output_hash: take(8) + try_into().unwrap()
    if rest.length < 8 then none
    else
      let output := rest.take 8
      let rest := rest.drop 8
      match rest with
      | [] => none      -- bytes.next().unwrap() on the discriminant
      | disc :: rest =>
        -- public key: take(48).collect() (no unwrap: short is accepted);
        -- index: take(8) + try_into().unwrap()
        let pkStep : Option (Option Bytes × Option Nat × Bytes) :=
          if disc = 0 then some (some (rest.take 48), none, rest.drop 48)
          else if disc = 1 then
            (if rest.length < 8 then none
             else some (none, some (leToNat (rest.take 8)), rest.drop 8))
          else some (none, none, rest)
        match pkStep with
        | none => none
        | some (pk, pkIdx, rest) =>
          match rest with
          | [] => none  -- bytes.next().unwrap() on proof_of_work_len
          | powLen :: rest =>
            -- proof_of_work: take(len).collect(); trailing bytes are dropped
            some ⟨coinfiles, output, pk, pkIdx, rest.take powLen⟩

/-- The structural constraints §3.1 places on an `Entry` (the claims quantify
over entries satisfying them). -/
def Entry.WF (e : Entry) : Prop :=
  1 ≤ e.coinfile_hashes.length ∧ e.coinfile_hashes.length ≤ 255 ∧
  (∀ h ∈ e.coinfile_hashes, h.length = 8) ∧
  e.output_hash.length = 8 ∧
  ((∃ pk, e.public_key = some pk ∧ pk.length = 48 ∧ e.public_key_index = none) ∨
   (e.public_key = none ∧ ∃ i, e.public_key_index = some i ∧ i < 2 ^ 64)) ∧
  e.proof_of_work.length ≤ 255

instance (e : Entry) : Decidable e.WF := by
  unfold Entry.WF; infer_instance

/- ------------------------------------------------------------------ -/
/- Entry difficulty (`block.rs`, `Entry::hash` / `Entry::difficulty`)  -/
/- ------------------------------------------------------------------ -/

/-- The byte loop of `Entry::difficulty`: `if i.leading_zeros() == 0 break;
else leading_zeros += i.leading_zeros()`. -/
def entryLzLoop : Bytes → Nat → Nat
  | [], acc => acc
  | b :: r, acc => if lz8 b = 0 then acc else entryLzLoop r (acc + lz8 b)

/-- `Entry::hash`: blake2b (512-bit) of the canonical serialization.  The
digest function is a parameter standing for the external `Blake2b`. -/
def Entry.hashDigest (blake : Bytes → Bytes) (e : Entry) : Except BlockErr Bytes :=
  e.toBytes.map blake

/-- `Entry::difficulty` (the `2usize.pow` is modelled on `Nat`; the
exponent never reaches 64 on real digests). -/
def Entry.difficulty (blake : Bytes → Bytes) (e : Entry) : Except BlockErr Nat :=
  (e.hashDigest blake).map (fun d => 2 ^ entryLzLoop d 0)

/-- The byte loop of `Block::miner_difficulty` (also used by the test
miner): `leading_zeros += i.leading_zeros(); if i.leading_zeros() < 8 break`. -/
def minerLzLoop : Bytes → Nat → Nat
  | [], acc => acc
  | b :: r, acc => if lz8 b < 8 then acc + lz8 b else minerLzLoop r (acc + lz8 b)

/-- `Block::miner_difficulty` as a function of the block hash. -/
def minerDifficulty (hash : Bytes) : Nat := 2 ^ minerLzLoop hash 0

/-- What the claim calls the number of leading zero bits of a digest:
zeros are counted bit by bit across the bytes in order and the count stops
inside the first byte that contains a set bit. -/
def leadingZeroBits : Bytes → Nat
  | [] => 0
  | b :: r => if b = 0 then 8 + leadingZeroBits r else lz8 b

/- ------------------------------------------------------------------ -/
/- Merkle tree (`merkle_tree/src/lib.rs`)                              -/
/- ------------------------------------------------------------------ -/

/-- `Node` of the merkle tree crate. -/
structure MNode where
  hash : Bytes
  index : Nat
  left_child_index : Nat
  right_child_index : Option Nat
  parent_index : Option Nat
  deriving DecidableEq, Repr

/-- `Layer::from_leafs`: hash each leaf in order.  `hf` stands for the
crate's 28-byte `VarBlake2b` hash. -/
def layerFromLeafs (hf : Bytes → Bytes) (leafs : List Bytes) : List MNode :=
  leafs.enum.map (fun p => ⟨hf p.2, p.1, p.1, none, none⟩)

/-- `Layer::from_layer`: pairs adjacent nodes, promotes a trailing unpaired
node, and sets the `parent_index` of every paired node in the lower layer
(the promoted node keeps `parent_index = None`, as in the source).  Returns
(updated lower layer, next layer); `pidx` is `nodes.len()` so far. -/
def layerStep (hf : Bytes → Bytes) : List MNode → Nat → (List MNode × List MNode)
  | [], _ => ([], [])
  | [n], pidx => ([n], [⟨n.hash, pidx, n.index, none, none⟩])
  | a :: b :: rest, pidx =>
    ({a with parent_index := some pidx} ::
       {b with parent_index := some pidx} :: (layerStep hf rest (pidx + 1)).1,
     (⟨hf (a.hash ++ b.hash), pidx, a.index, some b.index, none⟩ : MNode) ::
       (layerStep hf rest (pidx + 1)).2)

/-- The layer-building loop of `MerkleTree::new`, fuelled so that it is
structurally recursive (the fuel `cur.length` always suffices, see
`buildLayersFuel_isSome`).  `none` models the source's infinite loop on an
empty layer. -/
def buildLayersFuel (hf : Bytes → Bytes) : Nat → List MNode → Option (List (List MNode))
  | 0, _ => none
  | fuel + 1, cur =>
    if cur.length = 1 then some [cur]
    else if cur.length = 0 then none
    else
      match buildLayersFuel hf fuel (layerStep hf cur 0).2 with
      | none => none
      | some ls => some ((layerStep hf cur 0).1 :: ls)

/-- `MerkleTree` (root plus the mutated layer arena). -/
structure MerkleTreeL where
  root : Bytes
  layers : List (List MNode)
  deriving DecidableEq, Repr

/-- `MerkleTree::new` on already-serialized leaves (`Vec<u8>: From<T>` is
the entry codec, applied by the caller).  `none` models the infinite loop
on an empty leaf set. -/
def MerkleTreeL.new (hf : Bytes → Bytes) (leafs : List Bytes) : Option MerkleTreeL :=
  match buildLayersFuel hf (layerFromLeafs hf leafs).length (layerFromLeafs hf leafs) with
  | none => none
  | some ls => some ⟨((ls.getLastD []).headD ⟨[], 0, 0, none, none⟩).hash, ls⟩

/- ------------------------------------------------------------------ -/
/- Merkle proof (`merkle_tree/src/merkle_proof.rs`)                    -/
/- ------------------------------------------------------------------ -/

/-- A layer of a `MerkleProof`. -/
structure ProofLayer where
  left_hash : Bytes
  right_hash : Option Bytes
  deriving DecidableEq, Repr

/-- `Layer::hash`: hash left and right, or promote the left hash when there
is no right hash. -/
def layerHash (hf : Bytes → Bytes) (pl : ProofLayer) : Bytes :=
  match pl.right_hash with
  | some r => hf (pl.left_hash ++ r)
  | none => pl.left_hash

/-- `Layer::from_hash`.  Outer `none` is a panic (an out-of-bounds index);
`some none` is the source's `?` returning `None`. -/
def layerFromHash (hf : Bytes → Bytes) (h : Bytes) (cl : Nat) (t : MerkleTreeL) :
    Option (Option ProofLayer) :=
  match t.layers[cl]? with
  | none => none
  | some lay =>
    match lay.find? (fun n => n.hash == h) with
    | none => some none
    | some node =>
      match t.layers[cl + 1]? with
      | none => none
      | some upper =>
        match node.parent_index with
        | none => some none
        | some pi =>
          match upper[pi]? with
          | none => none
          | some parent =>
            match lay[parent.left_child_index]? with
            | none => none
            | some leftNode =>
              match parent.right_child_index with
              | none => some (some ⟨leftNode.hash, none⟩)
              | some ri =>
                match lay[ri]? with
                | none => none
                | some rightNode => some (some ⟨leftNode.hash, some rightNode.hash⟩)

/-- The layer loop of `MerkleProof::new` over `1..layers.len()-1`. -/
def proofNewGo (hf : Bytes → Bytes) (t : MerkleTreeL) :
    List ProofLayer → ProofLayer → List Nat → Option (Option (List ProofLayer))
  | acc, prev, [] => some (some (acc ++ [prev]))
  | acc, prev, li :: rest =>
    match layerFromHash hf (layerHash hf prev) li t with
    | none => none
    | some none => some none
    | some (some pl) => proofNewGo hf t (acc ++ [prev]) pl rest

/-- `MerkleProof::new` / `MerkleTree::get_proof`. -/
def getProof (hf : Bytes → Bytes) (t : MerkleTreeL) (h : Bytes) :
    Option (Option (List ProofLayer)) :=
  match layerFromHash hf h 0 t with
  | none => none
  | some none => some none
  | some (some pl) => proofNewGo hf t [] pl (List.range' 1 (t.layers.length - 1 - 1))

/-- `MerkleProof::is_proof`.  A proof with fewer than two layers panics in
both build profiles (debug: `layers.len() - 2` underflows; release: the
wrapped `take` exposes the out-of-bounds `layers[i + 1]`, and an empty
proof panics on `layers.last().unwrap()`), modelled as `none`. -/
def isProof (hf : Bytes → Bytes) (p : List ProofLayer) (root : Bytes) : Option Bool :=
  if p.length < 2 then none
  else some
    (((List.range (p.length - 2)).all (fun i =>
        (p.getD (i + 1) ⟨[], none⟩).left_hash == layerHash hf (p.getD i ⟨[], none⟩))) &&
     (layerHash hf (p.getLastD ⟨[], none⟩) == root))

/-- What the specification says `is_proof` checks: the recomputed hash of
every layer `i` must equal the `left_hash` recorded at layer `i + 1`, for
every `i` up to the last layer, and the last recomputed hash must equal the
root. -/
def isProofSpec (hf : Bytes → Bytes) (p : List ProofLayer) (root : Bytes) : Bool :=
  ((List.range (p.length - 1)).all (fun i =>
      (p.getD (i + 1) ⟨[], none⟩).left_hash == layerHash hf (p.getD i ⟨[], none⟩))) &&
  (layerHash hf (p.getLastD ⟨[], none⟩) == root)

/- ------------------------------------------------------------------ -/
/- Abstract primitives                                                 -/
/- ------------------------------------------------------------------ -/

/-- The `f32` operations the source performs, over an abstract carrier `F`.
Real IEEE `f32` arithmetic is one instance; witnesses use exact rationals
on values where the two agree. -/
structure FloatOps (F : Type) where
  beq : F → F → Bool
  blt : F → F → Bool
  add : F → F → F
  mul : F → F → F
  div : F → F → F
  ofNat : Nat → F
  ofInt : Int → F
  toNat : F → Nat
  toLE4 : F → Bytes
  c005 : F
  c15 : F

/-- The external cryptographic primitives of the crate: the 512-bit entry
hash, the 224-bit merkle hash, the RandomX hash (cache key, input), and the
BLS parsing/verification routines. -/
structure Crypto where
  blake2b512 : Bytes → Bytes
  merkleHash : Bytes → Bytes
  randomx : Bytes → Bytes → Bytes
  pkParseOk : Bytes → Bool
  sigParseOk : Bytes → Bool
  blsVerify : Bytes → List Bytes → List Bytes → Bool

/- ------------------------------------------------------------------ -/
/- Block data model (`block.rs`)                                       -/
/- ------------------------------------------------------------------ -/

/-- `BlockHeader` of `block.rs`. -/
structure BlockHeader (F : Type) where
  previous_hash : Bytes
  height : Nat
  merkle_root : Bytes
  timestamp : Nat
  difficulty_target : F
  entry_difficulty : F
  entry_difficulty_multiplier : F
  max_allowed_entry_difficulty : F
  miner_address : Bytes
  signature : Bytes
  deriving DecidableEq, Repr

/-- `BlockHeader::concat`: the canonical byte string fed to the PoW key
derivation. -/
def BlockHeader.concat {F : Type} (ops : FloatOps F) (h : BlockHeader F) : Bytes :=
  h.previous_hash ++ natToLE 8 h.height ++ h.merkle_root ++ natToLE 8 h.timestamp ++
    ops.toLE4 h.difficulty_target ++ h.miner_address ++ h.signature

/-- `Block` of `block.rs`. -/
structure Block (F : Type) where
  entries : List Entry
  header : BlockHeader F
  randomx_input : Bytes
  hash : Bytes
  deriving DecidableEq, Repr

/-- The MessagePack envelope codec (`rmp_serde`) for blocks, abstracted:
`encBlock` encodes a `BlockWithSerializedEntries`; `decBlock` is
`Block::from_bytes` as a whole (which re-derives the block through
`new_with_signature`). -/
structure Codec (F : Type) where
  encBlock : List Bytes → BlockHeader F → Bytes → Bytes → Bytes
  decBlock : Bytes → Option (Block F)

/-- `BlockchainInfo` of `lib.rs`. -/
structure BlockchainInfo (F : Type) where
  is_empty : Bool
  top_block_hash : Bytes
  past_median_timestamp : Nat
  network_adjusted_time : Nat
  difficulty : F
  randomx_vm_key : Bytes
  entry_difficulty_multiplier : F
  max_allowed_entry_difficulty : F
  block_size_cap : Nat
  height : Nat
  deriving DecidableEq, Repr

/- ------------------------------------------------------------------ -/
/- Key-value store model                                               -/
/- ------------------------------------------------------------------ -/

/-- A value slot of the store.  RocksDB stores raw bytes; header records go
through the canonical `rmp_serde` struct codec, which round-trips, so they
are modelled as structured values (`hdr`).  A `hdr` slot read through a
non-header accessor is unreachable for the operations modelled here and is
treated as a decode failure. -/
inductive DbVal (F : Type)
  | raw (bs : Bytes)
  | hdr (h : BlockHeader F)
  deriving DecidableEq, Repr

/-- The store: an association list, newest binding first. -/
def Db (F : Type) := List (Bytes × DbVal F)

instance {F : Type} [DecidableEq F] : DecidableEq (Db F) := by
  unfold Db; infer_instance

/-- `db.get`: first binding wins (a later `put` shadows earlier ones). -/
def dbGet {F : Type} (db : Db F) (k : Bytes) : Option (DbVal F) :=
  (db.find? (fun p => p.1 == k)).map Prod.snd

/-- `db.put`. -/
def dbPut {F : Type} (db : Db F) (k : Bytes) (v : DbVal F) : Db F :=
  (k, v) :: db

/-- `db.delete`. -/
def dbDel {F : Type} (db : Db F) (k : Bytes) : Db F :=
  db.filter (fun p => ! (p.1 == k))

/-- `KeyType::make_key`: push the tag byte and `rotate_right(1)`, i.e.
prepend the tag.  Tags: Block `0x01`, BlockHeader `0x02`, BlockHeight
`0x03`, PublicKey `0x04`. -/
def makeKey (tag : Nat) (key : Bytes) : Bytes := tag :: key

/- ------------------------------------------------------------------ -/
/- Block operations (`block.rs`)                                       -/
/- ------------------------------------------------------------------ -/

/-- `BlockchainErrorKind` of `lib.rs`.  `wrapped e` is the `Other` kind
carrying a wrapped `BlockError` source (`From<BlockError>`); it is also
used for wrapped codec failures. -/
inductive ChainErr
  | BlockDoesntExist
  | SkippedBlock
  | BlockNotAtTop
  | BlockTimestampTooEarly
  | BlockTooBig
  | BlockAlreadyExists
  | BlockNotEnoughWork
  | InvalidHash
  | BlockPreviousHashWrong
  | BlockTargetDifficultyWrong
  | BlockInFuture
  | InvalidMerkleRoot
  | CantFindHashFromHeight
  | BlockHeaderDoesntExist
  | BlockEntryDifficultyWrong
  | BlockMaxAllowedEntryDifficultyWrong
  | wrapped (e : BlockErr)
  deriving DecidableEq, Repr

/-- Serialize every entry (`entry.to_bytes()?` per entry, in order). -/
def entriesToBytes : List Entry → Except BlockErr (List Bytes)
  | [] => .ok []
  | e :: r =>
    match e.toBytes with
    | .error er => .error er
    | .ok bs =>
      match entriesToBytes r with
      | .error er => .error er
      | .ok rest => .ok (bs :: rest)

/-- The summation loop of `Block::entry_difficulty`. -/
def sumEntryDifficulty {F : Type} (ops : FloatOps F) (cr : Crypto) :
    List Entry → F → Except BlockErr F
  | [], acc => .ok acc
  | e :: r, acc =>
    match Entry.difficulty cr.blake2b512 e with
    | .error er => .error er
    | .ok d => sumEntryDifficulty ops cr r (ops.add acc (ops.ofNat d))

/-- `Block::entry_difficulty`: per-entry difficulties summed as `f32`,
clamped to the header's `max_allowed_entry_difficulty`. -/
def Block.entryDifficulty {F : Type} (ops : FloatOps F) (cr : Crypto) (b : Block F) :
    Except BlockErr F :=
  match sumEntryDifficulty ops cr b.entries (ops.ofNat 0) with
  | .error er => .error er
  | .ok s =>
    .ok (if ops.blt b.header.max_allowed_entry_difficulty s
         then b.header.max_allowed_entry_difficulty else s)

/-- `Block::difficulty`: miner difficulty plus weighted entry difficulty. -/
def Block.difficulty {F : Type} (ops : FloatOps F) (cr : Crypto) (b : Block F) :
    Except BlockErr F :=
  match b.entryDifficulty ops cr with
  | .error er => .error er
  | .ok ed =>
    .ok (ops.add (ops.ofNat (minerDifficulty b.hash))
                 (ops.mul ed b.header.entry_difficulty_multiplier))

/-- `Block::calc_hash` as defined in `block.rs`: a fresh RandomX cache is
keyed by `header.concat()` and evaluated on `randomx_input` alone. -/
def Block.calcHash {F : Type} (ops : FloatOps F) (cr : Crypto) (b : Block F) : Bytes :=
  cr.randomx (b.header.concat ops) b.randomx_input

/-- `Block::is_merkle_root_valid`.  `none` models the panic of
`Vec<u8>::from(Entry)` on a non-serializable entry and the non-terminating
`MerkleTree::new` on an empty entry list. -/
def Block.isMerkleRootValid {F : Type} (cr : Crypto) (b : Block F) : Option Bool :=
  match entriesToBytes b.entries with
  | .error _ => none
  | .ok leaves =>
    match MerkleTreeL.new cr.merkleHash leaves with
    | none => none
    | some t => some (t.root == b.header.merkle_root)

/-- `Block::to_bytes`. -/
def Block.toBytesB {F : Type} (cod : Codec F) (b : Block F) : Except BlockErr Bytes :=
  match entriesToBytes b.entries with
  | .error er => .error er
  | .ok ebs => .ok (cod.encBlock ebs b.header b.randomx_input b.hash)

/-- The per-entry loop of `Block::check_signature`: resolve each public key
(inline bytes or store lookup under the PublicKey tag) and collect each
entry's canonical serialization as its message. -/
def collectSig {F : Type} (cr : Crypto) (db : Db F) :
    List Entry → List Bytes → List Bytes → Except BlockErr (List Bytes × List Bytes)
  | [], pks, msgs => .ok (pks, msgs)
  | e :: rest, pks, msgs =>
    let step : Except BlockErr Bytes :=
      match e.public_key with
      | some pkb => if cr.pkParseOk pkb then .ok pkb else .error .Other
      | none =>
        match e.public_key_index with
        | some i =>
          match dbGet db (makeKey 4 (natToLE 8 i)) with
          | some (.raw kb) => if cr.pkParseOk kb then .ok kb else .error .Other
          | some (.hdr _) => .error .Other
          | none => .error .NoPublicKeyFound
        | none => .error .NoPublicKeyFound
    match step with
    | .error er => .error er
    | .ok pkb =>
      match e.toBytes with
      | .error er => .error er
      | .ok msg => collectSig cr db rest (pks ++ [pkb]) (msgs ++ [msg])

/-- `Block::check_signature`. -/
def Block.checkSignature {F : Type} (cr : Crypto) (db : Db F) (b : Block F) :
    Except BlockErr Unit :=
  match collectSig cr db b.entries [] [] with
  | .error er => .error er
  | .ok (pks, msgs) =>
    if ¬ cr.sigParseOk b.header.signature then .error .Other
    else if ¬ cr.blsVerify b.header.signature msgs pks then .error .InvalidSignature
    else .ok ()

/- ------------------------------------------------------------------ -/
/- Chain state and accessors (`lib.rs`)                                -/
/- ------------------------------------------------------------------ -/

/-- `RANDOMX_VM_KEY_LIFETIME`. -/
def RANDOMX_VM_KEY_LIFETIME : Nat := 10000

/-- The engine state: chain info, store, and the key the current RandomX
cache was built from. -/
structure Chain (F : Type) where
  info : BlockchainInfo F
  db : Db F
  cacheKey : Bytes
  deriving DecidableEq

/-- `Blockchain::get_block`: reads the store at the *raw* 32-byte hash
(without the Block key tag, exactly as in the source). -/
def getBlock {F : Type} (cod : Codec F) (db : Db F) (hash : Bytes) :
    Except ChainErr (Block F) :=
  match dbGet db hash with
  | none => .error .BlockDoesntExist
  | some (.raw bs) =>
    match cod.decBlock bs with
    | none => .error (.wrapped .Other)
    | some b => .ok b
  | some (.hdr _) => .error (.wrapped .Other)

/-- `Blockchain::get_block_hash` (height → hash index). -/
def getBlockHash {F : Type} (db : Db F) (height : Nat) : Except ChainErr Bytes :=
  match dbGet db (makeKey 3 (natToLE 8 height)) with
  | none => .error .CantFindHashFromHeight
  | some (.raw h) => .ok h
  | some (.hdr _) => .error (.wrapped .Other)

/-- `Blockchain::get_block_header`. -/
def getBlockHeader {F : Type} (db : Db F) (hash : Bytes) :
    Except ChainErr (BlockHeader F) :=
  match dbGet db (makeKey 2 hash) with
  | none => .error .BlockHeaderDoesntExist
  | some (.hdr h) => .ok h
  | some (.raw _) => .error (.wrapped .Other)

/-- `Blockchain::get_previous_n_block_headers`: headers at
`height, height - 1, …`, stopping before index 0. -/
def prevNHeaders {F : Type} (db : Db F) (height : Nat) :
    Nat → Nat → Except ChainErr (List (BlockHeader F))
  | 0, _ => .ok []
  | n + 1, i =>
    if (height : Int) - i < 1 then .ok []
    else
      match getBlockHash db ((height : Int) - i).toNat with
      | .error e => .error e
      | .ok h =>
        match getBlockHeader db h with
        | .error e => .error e
        | .ok hd =>
          match prevNHeaders db height n (i + 1) with
          | .error e => .error e
          | .ok rest => .ok (hd :: rest)

/-- `PREVIOUS_BLOCKS_TO_CONSIDER = 750` applications of the loop body. -/
def getPreviousNBlockHeaders {F : Type} (db : Db F) (height : Nat) (amount : Nat) :
    Except ChainErr (List (BlockHeader F)) :=
  prevNHeaders db height amount 0

/-- `Blockchain::update_median_timestamp`: copies the timestamp of the
header `max(1, height - 11)` into `past_median_timestamp`. -/
def updateMedianTimestamp {F : Type} (ch : Chain F) : Chain F × Option ChainErr :=
  if ch.info.height < 1 then (ch, none)
  else
    match getBlockHash ch.db
        ((if (ch.info.height : Int) - 11 < 1 then 1
          else (ch.info.height : Int) - 11).toNat) with
    | .error e => (ch, some e)
    | .ok h =>
      match getBlockHeader ch.db h with
      | .error e => (ch, some e)
      | .ok hd =>
        ({ ch with info := { ch.info with past_median_timestamp := hd.timestamp } }, none)

/-- The consecutive-difference sum of `update_difficulty`
(`headers[i-1].timestamp - headers[i].timestamp`, as `i128`). -/
def blockTimeTotal {F : Type} : List (BlockHeader F) → Int
  | [] => 0
  | h :: r => blockTimeGo h r
where blockTimeGo : BlockHeader F → List (BlockHeader F) → Int
  | _, [] => 0
  | prev, h :: r => ((prev.timestamp : Int) - (h.timestamp : Int)) + blockTimeGo h r

/-- `Blockchain::update_difficulty`. -/
def updateDifficulty {F : Type} (ops : FloatOps F) (ch : Chain F) :
    Chain F × Option ChainErr :=
  if ch.info.height < 2 then (ch, none)
  else
    match getPreviousNBlockHeaders ch.db ch.info.height 750 with
    | .error e => (ch, some e)
    | .ok hs =>
      ({ ch with info := { ch.info with
          difficulty := ops.mul
            (ops.div
              (ops.div
                (ops.ofNat (hs.foldl (fun t h => t + ops.toNat h.difficulty_target) 0))
                (ops.ofNat hs.length))
              (ops.div (ops.ofInt (blockTimeTotal hs)) (ops.ofNat hs.length)))
            (ops.ofNat 120) } }, none)

/-- `Blockchain::update_entry_difficulty_limits`. -/
def updateEntryDifficultyLimits {F : Type} (ops : FloatOps F) (ch : Chain F) :
    Chain F × Option ChainErr :=
  if ch.info.height < 2 then (ch, none)
  else
    match getPreviousNBlockHeaders ch.db ch.info.height 750 with
    | .error e => (ch, some e)
    | .ok hs =>
      ({ ch with info :=
          { ch.info with
            entry_difficulty_multiplier := ops.div
              (ops.mul
                (ops.div
                  (ops.ofNat (hs.foldl (fun t h => t + ops.toNat h.difficulty_target) 0))
                  (ops.ofNat hs.length))
                ops.c005)
              (ops.div (ops.ofNat (hs.foldl (fun t h => t + ops.toNat h.entry_difficulty) 0))
                (ops.ofNat hs.length)),
            max_allowed_entry_difficulty := ops.mul
              (ops.div (ops.ofNat (hs.foldl (fun t h => t + ops.toNat h.entry_difficulty) 0))
                (ops.ofNat hs.length))
              ops.c15 } }, none)

/-- The three controller updates run after every append/rollback, in source
order; the first error stops the sequence (state mutated so far kept). -/
def runControllers {F : Type} (ops : FloatOps F) (ch : Chain F) :
    Chain F × Option ChainErr :=
  match updateMedianTimestamp ch with
  | (c, some e) => (c, some e)
  | (c, none) =>
    match updateDifficulty ops c with
    | (c, some e) => (c, some e)
    | (c, none) => updateEntryDifficultyLimits ops c

/-- The post-write tail of `add_block`: run the three controller updates,
then rotate the RandomX key epoch when the new height is a multiple of
`RANDOMX_VM_KEY_LIFETIME`. -/
def applyBlock {F : Type} (ops : FloatOps F) (ch1 : Chain F) :
    Chain F × Option ChainErr :=
  match runControllers ops ch1 with
  | (c2, some e) => (c2, some e)
  | (c2, none) =>
    if c2.info.height % RANDOMX_VM_KEY_LIFETIME = 0 then
      ({ c2 with
          info := { c2.info with randomx_vm_key := c2.info.top_block_hash },
          cacheKey := c2.info.top_block_hash }, none)
    else (c2, none)

/-- `Blockchain::add_block`.  The result is `none` on a panic (only
reachable through the Merkle-root check, see `Block.isMerkleRootValid`);
otherwise `some (state, err?)` gives the final state of `&mut self` and the
returned error, if any. -/
def addBlock {F : Type} (ops : FloatOps F) (cr : Crypto) (cod : Codec F)
    (ch : Chain F) (b : Block F) : Option (Chain F × Option ChainErr) :=
  if (getBlock cod ch.db b.hash).isOk then some (ch, some .BlockAlreadyExists)
  else if ch.info.height + 1 < b.header.height then some (ch, some .SkippedBlock)
  else if b.header.height < ch.info.height + 1 then some (ch, some .BlockNotAtTop)
  else if b.header.previous_hash ≠ ch.info.top_block_hash then
    some (ch, some .BlockPreviousHashWrong)
  else if ¬ ops.beq b.header.difficulty_target ch.info.difficulty then
    some (ch, some .BlockTargetDifficultyWrong)
  else if b.header.timestamp < ch.info.past_median_timestamp then
    some (ch, some .BlockTimestampTooEarly)
  else if ch.info.network_adjusted_time + 3600 < b.header.timestamp then
    some (ch, some .BlockInFuture)
  else
    match b.difficulty ops cr with
    | .error e => some (ch, some (.wrapped e))
    | .ok d =>
      if ops.blt d ch.info.difficulty then some (ch, some .BlockNotEnoughWork)
      else
        match b.entryDifficulty ops cr with
        | .error e => some (ch, some (.wrapped e))
        | .ok ed =>
          if ¬ ops.beq b.header.entry_difficulty ed then
            some (ch, some .BlockEntryDifficultyWrong)
          else if ¬ ops.beq b.header.max_allowed_entry_difficulty
                     ch.info.max_allowed_entry_difficulty then
            some (ch, some .BlockMaxAllowedEntryDifficultyWrong)
          else
            match b.isMerkleRootValid cr with
            | none => none
            | some valid =>
              if ¬ valid then some (ch, some .InvalidMerkleRoot)
              else
                match b.toBytesB cod with
                | .error e => some (ch, some (.wrapped e))
                | .ok blockBytes =>
                  if ch.info.block_size_cap < blockBytes.length then
                    some (ch, some .BlockTooBig)
                  else
                    match b.checkSignature cr ch.db with
                    | .error e => some (ch, some (.wrapped e))
                    | .ok _ =>
                      if Block.calcHash ops cr b ≠ b.hash then
                        some (ch, some .InvalidHash)
                      else
                        let info1 := { ch.info with
                          height := ch.info.height + 1,
                          top_block_hash := b.hash,
                          is_empty := false }
                        let db1 := dbPut ch.db (makeKey 1 b.hash) (.raw blockBytes)
                        let db2 := dbPut db1 (makeKey 3 (natToLE 8 b.header.height))
                                     (.raw b.hash)
                        let db3 := dbPut db2 (makeKey 2 b.hash) (.hdr b.header)
                        some (applyBlock ops ⟨info1, db3, ch.cacheKey⟩)

/-- `Blockchain::del_top_block`.  `none` models the debug-profile panics
(`height -= 1` underflow at height 0 and the `try_into().unwrap()` on a
stored hash that is not 32 bytes). -/
def delTopBlock {F : Type} (ops : FloatOps F) (ch : Chain F) :
    Option (Chain F × Option ChainErr) :=
  match getBlockHash ch.db ch.info.height with
  | .error e => some (ch, some e)
  | .ok bh =>
    match getBlockHeader ch.db bh with
    | .error e => some (ch, some e)
    | .ok hd =>
      let db1 := dbDel ch.db (makeKey 3 (natToLE 8 hd.height))
      let db2 := dbDel db1 (makeKey 2 bh)
      if ch.info.height = 0 then none
      else
        let info1 := { ch.info with
          top_block_hash := hd.previous_hash,
          height := ch.info.height - 1 }
        let db3 := dbDel db2 (makeKey 1 bh)
        if hd.height % RANDOMX_VM_KEY_LIFETIME = 0 then
          if 0 < hd.height - RANDOMX_VM_KEY_LIFETIME then
            match getBlockHash db3 (hd.height - RANDOMX_VM_KEY_LIFETIME) with
            | .error e => some (⟨info1, db3, ch.cacheKey⟩, some e)
            | .ok old =>
              if old.length = 32 then
                some (runControllers ops
                  ⟨{ info1 with randomx_vm_key := old }, db3, ch.cacheKey⟩)
              else none
          else
            some (runControllers ops
              ⟨{ info1 with randomx_vm_key := List.replicate 32 0 }, db3, ch.cacheKey⟩)
        else some (runControllers ops ⟨info1, db3, ch.cacheKey⟩)

/-- The specification's ordered list of the thirteen `add_block` validation
checks: each item is computed independently of the others and yields that
check's error when the check fails. -/
def checkList {F : Type} (ops : FloatOps F) (cr : Crypto) (cod : Codec F)
    (ch : Chain F) (b : Block F) : List (Option ChainErr) :=
  [ if (getBlock cod ch.db b.hash).isOk then some .BlockAlreadyExists else none,
    if ch.info.height + 1 < b.header.height then some .SkippedBlock
    else if b.header.height < ch.info.height + 1 then some .BlockNotAtTop else none,
    if b.header.previous_hash ≠ ch.info.top_block_hash then
      some .BlockPreviousHashWrong else none,
    if ¬ ops.beq b.header.difficulty_target ch.info.difficulty then
      some .BlockTargetDifficultyWrong else none,
    if b.header.timestamp < ch.info.past_median_timestamp then
      some .BlockTimestampTooEarly else none,
    if ch.info.network_adjusted_time + 3600 < b.header.timestamp then
      some .BlockInFuture else none,
    (match b.difficulty ops cr with
     | .error e => some (.wrapped e)
     | .ok d => if ops.blt d ch.info.difficulty then some .BlockNotEnoughWork else none),
    (match b.entryDifficulty ops cr with
     | .error e => some (.wrapped e)
     | .ok ed => if ¬ ops.beq b.header.entry_difficulty ed then
         some .BlockEntryDifficultyWrong else none),
    if ¬ ops.beq b.header.max_allowed_entry_difficulty
         ch.info.max_allowed_entry_difficulty then
      some .BlockMaxAllowedEntryDifficultyWrong else none,
    (match b.isMerkleRootValid cr with
     | some false => some .InvalidMerkleRoot
     | _ => none),
    (match b.toBytesB cod with
     | .error e => some (.wrapped e)
     | .ok bs => if ch.info.block_size_cap < bs.length then some .BlockTooBig else none),
    (match b.checkSignature cr ch.db with
     | .error e => some (.wrapped e)
     | .ok _ => none),
    if Block.calcHash ops cr b ≠ b.hash then some .InvalidHash else none ]

/-- The first failing check, in the specification's order. -/
def firstFailingCheck {F : Type} (ops : FloatOps F) (cr : Crypto) (cod : Codec F)
    (ch : Chain F) (b : Block F) : Option ChainErr :=
  (checkList ops cr cod ch b).findSome? id

/- ------------------------------------------------------------------ -/
/- Concrete instantiations for witnesses and counterexamples           -/
/- ------------------------------------------------------------------ -/

/-- An exact fraction, kept unnormalized so that all arithmetic is
kernel-computable. -/
structure FRat where
  num : Int
  den : Int
  deriving DecidableEq, Repr

/-- Exact-fraction float model (denominators stay positive in every run
below, so the comparisons are the rational ones).  Witnesses and
counterexamples only ever evaluate it on values where IEEE `f32` arithmetic
is exact, so runs instantiated with it agree step by step with the Rust
code. -/
def ratOps : FloatOps FRat where
  beq a b := a.num * b.den == b.num * a.den
  blt a b := decide (a.num * b.den < b.num * a.den)
  add a b := ⟨a.num * b.den + b.num * a.den, a.den * b.den⟩
  mul a b := ⟨a.num * b.num, a.den * b.den⟩
  div a b := ⟨a.num * b.den, a.den * b.num⟩
  ofNat n := ⟨n, 1⟩
  ofInt i := ⟨i, 1⟩
  toNat q := if q.num < 0 then 0 else (q.num / q.den).toNat
  toLE4 _ := [0, 0, 0, 0]
  c005 := ⟨1, 20⟩
  c15 := ⟨3, 2⟩

def zeros32 : Bytes := List.replicate 32 0

def zeros28 : Bytes := List.replicate 28 0

/-- The block hash used by the concrete accepted block: one leading `0x01`
byte (7 leading zero bits, miner difficulty `2^7 = 128`). -/
def b1hash : Bytes := 1 :: List.replicate 31 255

/-- Scenario-C entry: one zero coinfile hash, zero output hash, an inline
48-byte public key, proof of work `[2, 2, 2, 2]`. -/
def e1 : Entry :=
  ⟨[[0, 0, 0, 0, 0, 0, 0, 0]], [0, 0, 0, 0, 0, 0, 0, 0],
   some (List.replicate 48 4), none, [2, 2, 2, 2]⟩

/-- `e1` with a single serialized byte changed (first proof-of-work byte
`2 → 3`). -/
def e1mut : Entry := { e1 with proof_of_work := [3, 2, 2, 2] }

def e1bytes : Bytes :=
  match e1.toBytes with
  | .ok bs => bs
  | .error _ => []

def e1mutBytes : Bytes :=
  match e1mut.toBytes with
  | .ok bs => bs
  | .error _ => []

/-- Concrete primitives under which the concrete block `b1` passes every
`add_block` check: every entry digest starts `0xff` (entry difficulty 1),
every merkle hash is the zero 28-byte string, and the RandomX hash always
returns `b1hash`. -/
def c1cr : Crypto where
  blake2b512 _ := 255 :: List.replicate 63 0
  merkleHash _ := zeros28
  randomx _ _ := b1hash
  pkParseOk _ := true
  sigParseOk _ := true
  blsVerify _ _ _ := true

/-- Like `c1cr` but the digest of the mutated entry `e1mut` starts with a
zero byte, so its entry difficulty jumps from `2^0` to `2^8`. -/
def c3cr : Crypto :=
  { c1cr with
    blake2b512 := fun bs =>
      if bs = e1mutBytes then 0 :: 255 :: List.replicate 62 0
      else 255 :: List.replicate 63 0 }

/-- Like `c1cr` but the RandomX hash returns its cache key, making the key
choice of `Block::calc_hash` observable. -/
def c2cr : Crypto := { c1cr with randomx := fun k _ => k }

/-- A codec whose block envelope is empty (its content is never read back
in the runs below). -/
def c1cod : Codec FRat where
  encBlock _ _ _ _ := []
  decBlock _ := none

/-- Chain info of an empty chain (the `BlockchainInfo::default` shape, with
`difficulty = 1`, `max_allowed_entry_difficulty = 100`, and
`network_adjusted_time = 0` for concreteness). -/
def info1 : BlockchainInfo FRat :=
  ⟨true, zeros32, 0, 0, ⟨1, 1⟩, zeros32, ⟨0, 1⟩, ⟨100, 1⟩, 250000, 0⟩

/-- An empty chain. -/
def st1 : Chain FRat := ⟨info1, [], zeros32⟩

/-- Header of the concrete first block. -/
def h1 : BlockHeader FRat := ⟨zeros32, 1, zeros28, 0, ⟨1, 1⟩, ⟨1, 1⟩, ⟨0, 1⟩, ⟨100, 1⟩, zeros32, [7]⟩

/-- A concrete block accepted from `st1` under `c1cr`. -/
def b1 : Block FRat := ⟨[e1], h1, [0], b1hash⟩

/-- `b1` with one byte of its single entry mutated. -/
def b1mut : Block FRat := { b1 with entries := [e1mut] }

/-- Digest making `Entry::difficulty` observably differ from
`2^leading_zero_bits`: bits `0100 0000` then `0000 0000` then all-ones. -/
def c7digest : Bytes := 64 :: 0 :: List.replicate 62 255

/-- Concrete merkle hash for the single-leaf scenario. -/
def hf28 : Bytes → Bytes := fun _ => zeros28

/-- A two-layer proof whose last layer is not linked to the first:
layer 1 records `left_hash = cexX` while layer 0 recomputes to `cexA`. -/
def cexA : Bytes := List.replicate 28 0

def cexX : Bytes := List.replicate 28 1

def cexProof : List ProofLayer := [⟨cexA, none⟩, ⟨cexX, none⟩]


/-- Hash stored for the height-1 block of the concrete two-block chain. -/
def hash1v : Bytes := List.replicate 32 9

/-- Hash stored for the height-2 block of the concrete two-block chain. -/
def hash2v : Bytes := List.replicate 32 8

/-- Stored header of height 1 (timestamp 5). -/
def hdr1 : BlockHeader FRat :=
  ⟨zeros32, 1, zeros28, 5, ⟨1, 1⟩, ⟨4, 1⟩, ⟨0, 1⟩, ⟨100, 1⟩, zeros32, [7]⟩

/-- Stored header of height 2 (timestamp 7). -/
def hdr2 : BlockHeader FRat :=
  ⟨hash1v, 2, zeros28, 7, ⟨1, 1⟩, ⟨4, 1⟩, ⟨0, 1⟩, ⟨100, 1⟩, zeros32, [7]⟩

/-- Store of the two-block chain. -/
def db2db : Db FRat :=
  [(makeKey 3 (natToLE 8 1), .raw hash1v), (makeKey 2 hash1v, .hdr hdr1),
   (makeKey 3 (natToLE 8 2), .raw hash2v), (makeKey 2 hash2v, .hdr hdr2)]

/-- Chain info at height 2 whose controller fields are exactly the values
the controllers recompute from `db2db` (a fixpoint). -/
def info2 : BlockchainInfo FRat :=
  ⟨false, hash2v, 5, 10, ⟨480, 4⟩, zeros32, ⟨4, 320⟩, ⟨24, 4⟩, 250000, 2⟩

/-- A coherent chain state at height 2. -/
def st2 : Chain FRat := ⟨info2, db2db, zeros32⟩

/-- Header of the concrete block accepted at height 3. -/
def h2hdr : BlockHeader FRat :=
  ⟨hash2v, 3, zeros28, 9, ⟨480, 4⟩, ⟨1, 1⟩, ⟨0, 1⟩, ⟨24, 4⟩, zeros32, [7]⟩

/-- The concrete block accepted from `st2`. -/
def b2 : Block FRat := ⟨[e1], h2hdr, [0], b1hash⟩

/-- The state after appending `b2` to `st2` (extracted from the run). -/
def st2' : Chain FRat :=
  match addBlock ratOps c1cr c1cod st2 b2 with
  | some p => p.1
  | none => st2

/-- A chain state at height 1: the rollback of an append from here skips
the difficulty controller (height 1 < 2), so difficulty is not restored. -/
def info3 : BlockchainInfo FRat :=
  ⟨false, hash1v, 5, 10, ⟨1, 1⟩, zeros32, ⟨0, 1⟩, ⟨100, 1⟩, 250000, 1⟩

def db3db : Db FRat :=
  [(makeKey 3 (natToLE 8 1), .raw hash1v), (makeKey 2 hash1v, .hdr hdr1)]

def st3 : Chain FRat := ⟨info3, db3db, zeros32⟩

/-- Header of the concrete block accepted at height 2 from `st3`. -/
def h3hdr : BlockHeader FRat :=
  ⟨hash1v, 2, zeros28, 7, ⟨1, 1⟩, ⟨1, 1⟩, ⟨0, 1⟩, ⟨100, 1⟩, zeros32, [7]⟩

def b3 : Block FRat := ⟨[e1], h3hdr, [0], b1hash⟩

/- ------------------------------------------------------------------ -/
/- Helper lemmas                                                       -/
/- ------------------------------------------------------------------ -/

@[simp] theorem natToLE_length (k n : Nat) : (natToLE k n).length = k := by
  induction k generalizing n with
  | zero => rfl
  | succ k ih => simp [natToLE, ih]

theorem leToNat_natToLE (k n : Nat) (h : n < 256 ^ k) :
    leToNat (natToLE k n) = n := by
  induction k generalizing n with
  | zero => simp at h; simp [natToLE, leToNat, h]
  | succ k ih =>
    have hdiv : n / 256 < 256 ^ k := by
      rw [Nat.div_lt_iff_lt_mul (by norm_num)]
      calc n < 256 ^ (k + 1) := h
        _ = 256 ^ k * 256 := by ring
    simp [natToLE, leToNat, ih _ hdiv]
    omega

theorem lz8_eq_zero_iff (b : Nat) : lz8 b = 0 ↔ 128 ≤ b := by
  unfold lz8
  repeat' split
  all_goals omega

theorem entryLzLoop_eq_sum (l : Bytes) (acc : Nat) :
    entryLzLoop l acc =
      acc + ((l.takeWhile (fun b => decide (b < 128))).map lz8).sum := by
  induction l generalizing acc with
  | nil => simp [entryLzLoop]
  | cons b r ih =>
    by_cases hb : lz8 b = 0
    · have : ¬ b < 128 := by have := (lz8_eq_zero_iff b).mp hb; omega
      simp [entryLzLoop, hb, List.takeWhile_cons, this]
    · have : b < 128 := by
        by_contra hge
        exact hb ((lz8_eq_zero_iff b).mpr (by omega))
      simp [entryLzLoop, hb, List.takeWhile_cons, this, ih]
      omega

/- ------------------------------------------------------------------ -/
/- Entry codec round trip                                              -/
/- ------------------------------------------------------------------ -/

theorem readChunks8_flatten (hs : List Bytes) (t : Bytes)
    (hlen : ∀ h ∈ hs, h.length = 8) :
    readChunks8 hs.length (hs.flatten ++ t) = some (hs, t) := by
  induction hs with
  | nil => simp [readChunks8]
  | cons h r ih =>
    have h8 : h.length = 8 := hlen h (by simp)
    have hr : ∀ x ∈ r, x.length = 8 := fun x hx => hlen x (by simp [hx])
    simp only [List.length_cons, readChunks8, List.flatten_cons, List.append_assoc]
    have hge : ¬ (h ++ (r.flatten ++ t)).length < 8 := by
      simp [List.length_append, h8]
    rw [if_neg hge]
    have htake : (h ++ (r.flatten ++ t)).take 8 = h := by
      rw [← h8]; exact List.take_left h _
    have hdrop : (h ++ (r.flatten ++ t)).drop 8 = r.flatten ++ t := by
      rw [← h8]; exact List.drop_left h _
    rw [htake, hdrop, ih hr]
    rfl

theorem layerStep_fst_length (hf : Bytes → Bytes) :
    ∀ (l : List MNode) (p : Nat), ((layerStep hf l p).1).length = l.length
  | [], _ => by simp [layerStep]
  | [n], _ => by simp [layerStep]
  | _ :: _ :: rest, p => by
    simp [layerStep, layerStep_fst_length hf rest (p + 1)]

theorem layerStep_snd_length (hf : Bytes → Bytes) :
    ∀ (l : List MNode) (p : Nat), ((layerStep hf l p).2).length = (l.length + 1) / 2
  | [], _ => by simp [layerStep]
  | [n], _ => by simp [layerStep]
  | _ :: _ :: rest, p => by
    simp [layerStep, layerStep_snd_length hf rest (p + 1)]
    omega

theorem buildLayersFuel_isSome (hf : Bytes → Bytes) :
    ∀ (fuel : Nat) (cur : List MNode), cur ≠ [] → cur.length ≤ fuel →
      (buildLayersFuel hf fuel cur).isSome := by
  intro fuel
  induction fuel with
  | zero =>
    intro cur hne hle
    cases cur with
    | nil => exact absurd rfl hne
    | cons a l => simp at hle
  | succ fuel ih =>
    intro cur hne hle
    by_cases h1 : cur.length = 1
    · simp [buildLayersFuel, h1]
    · have h0 : cur.length ≠ 0 := by
        cases cur with
        | nil => exact absurd rfl hne
        | cons a l => simp
      have h2 : 2 ≤ cur.length := by omega
      have hlen := layerStep_snd_length hf cur 0
      have hne' : (layerStep hf cur 0).2 ≠ [] := by
        intro hnil
        rw [hnil] at hlen
        simp at hlen
        omega
      have hle' : ((layerStep hf cur 0).2).length ≤ fuel := by
        rw [hlen]; omega
      have := ih (layerStep hf cur 0).2 hne' hle'
      simp only [buildLayersFuel, if_neg h1, if_neg h0]
      cases hres : buildLayersFuel hf fuel (layerStep hf cur 0).2 with
      | none => rw [hres] at this; simp at this
      | some ls => simp

/-- Core codec lemma: a structurally well-formed entry serializes, and
deserialization of that byte string followed by anything recovers the entry
(the decoder never looks past the canonical layout). -/
theorem entry_decode_encode (e : Entry) (hwf : e.WF) (bs extra : Bytes)
    (henc : e.toBytes = .ok bs) :
    Entry.fromBytes (bs ++ extra) = some e := by
  obtain ⟨cf, out, pk, pkidx, pow⟩ := e
  obtain ⟨h1, h255, hcf8, hout, hpk, hpow⟩ := hwf
  simp only at hcf8 hout hpow h255 ⊢
  have hnot255 : ¬ 255 < cf.length := by omega
  have hnotpow : ¬ 255 < pow.length := by omega
  rcases hpk with ⟨pkb, hpk, hpkl, hidx⟩ | ⟨hpk, i, hidx, hilt⟩
  · -- inline 48-byte public key, discriminant 0
    simp only at hpk hidx
    subst hpk; subst hidx
    rw [Entry.toBytes, if_neg hnot255] at henc
    simp only [if_neg hnotpow] at henc
    injection henc with henc
    subst henc
    simp only [List.append_assoc, List.cons_append, List.nil_append,
      Entry.fromBytes]
    rw [readChunks8_flatten cf _ hcf8]
    have hT : ¬ (out ++ (0 :: (pkb ++ (pow.length :: (pow ++ extra))))).length < 8 := by
      simp [hout]
    simp only [Option.bind_eq_bind, Option.some_bind, if_neg hT,
      List.take_left' hout, List.drop_left' hout]
    simp [List.take_left' hpkl, List.drop_left' hpkl,
      List.take_left' (rfl : pow.length = pow.length)]
  · -- public-key index, discriminant 1
    simp only at hpk hidx hilt
    subst hpk; subst hidx
    rw [Entry.toBytes, if_neg hnot255] at henc
    simp only [if_neg hnotpow] at henc
    injection henc with henc
    subst henc
    simp only [List.append_assoc, List.cons_append, List.nil_append,
      Entry.fromBytes]
    rw [readChunks8_flatten cf _ hcf8]
    have hT : ¬ (out ++ (1 :: (natToLE 8 i ++ (pow.length :: (pow ++ extra))))).length < 8 := by
      simp [hout]
    simp only [Option.bind_eq_bind, Option.some_bind, if_neg hT,
      List.take_left' hout, List.drop_left' hout]
    have h8 : (natToLE 8 i).length = 8 := natToLE_length 8 i
    have hlen8 : ¬ (natToLE 8 i ++ (pow.length :: (pow ++ extra))).length < 8 := by
      simp [h8]
    simp only [if_neg hlen8, List.take_left' h8, List.drop_left' h8,
      leToNat_natToLE 8 i hilt,
      List.take_left' (rfl : pow.length = pow.length)]
    norm_num

/- ------------------------------------------------------------------ -/
/- Claim theorems                                                      -/
/- ------------------------------------------------------------------ -/

/-- Claim C1: after a successful `add_block`, `get_block(B.hash)` does NOT
return `B` — it returns `BlockDoesntExist`, because `add_block` stores the
block under the tagged key `0x01 ‖ hash` while `get_block` reads the raw
hash.  This theorem runs the embedded `add_block` on a concrete empty chain
and block: the append succeeds (error component `none`) and the immediately
following `get_block` returns `BlockDoesntExist`. -/
theorem add_block_then_get_block_misses :
    (addBlock ratOps c1cr c1cod st1 b1).map
      (fun p => (p.2, getBlock c1cod p.1.db b1.hash)) =
      some (none, .error .BlockDoesntExist) := by
  decide

/-- Claim C2: `Block::calc_hash` does not use the chain's epoch cache at
all — it keys a fresh cache from `header.concat()` and hashes only the
nonce.  Instantiating the RandomX primitive with the function that returns
its cache key makes the key choice observable: the recomputed hash equals
the header concatenation, which differs from what the claim prescribes
(the epoch key `info.randomx_vm_key` applied to `header.concat() ‖ nonce`). -/
theorem calc_hash_key_is_header_concat :
    Block.calcHash ratOps c2cr b1 = b1.header.concat ratOps ∧
    Block.calcHash ratOps c2cr b1 ≠
      c2cr.randomx st1.info.randomx_vm_key
        (b1.header.concat ratOps ++ b1.randomx_input) := by
  decide

/-- Claim C5 (counterexample): a two-layer proof whose recorded layer-1
`left_hash` does not match the recomputed layer-0 hash is nevertheless
accepted by `is_proof`, because the verification loop runs only up to
`layers.len() - 2` and never checks the link into the last layer; the
claim's formula rejects the same proof. -/
theorem is_proof_skips_last_link :
    isProof hf28 cexProof cexX = some true ∧
    isProofSpec hf28 cexProof cexX = false := by
  decide

/-- Claim C5 (amended): for a proof of at least two layers, `is_proof`
returns `true` iff the recomputed hash of layer `i` matches the `left_hash`
of layer `i + 1` for every `i < len - 2` (the link into the last layer is
not checked) and the last layer's recomputed hash equals the root.  Proofs
with fewer than two layers panic instead (`isProof` is `none` there). -/
theorem is_proof_characterization (hf : Bytes → Bytes) (p : List ProofLayer)
    (root : Bytes) (h2 : 2 ≤ p.length) :
    isProof hf p root = some true ↔
      ((∀ i < p.length - 2,
          (p.getD (i + 1) ⟨[], none⟩).left_hash = layerHash hf (p.getD i ⟨[], none⟩)) ∧
       layerHash hf (p.getLastD ⟨[], none⟩) = root) := by
  unfold isProof
  rw [if_neg (by omega : ¬ p.length < 2)]
  simp [List.all_eq_true, List.mem_range, beq_iff_eq]

theorem is_proof_characterization_witness :
    2 ≤ cexProof.length ∧
    (isProof hf28 cexProof cexA = some true ↔
      ((∀ i < cexProof.length - 2,
          (cexProof.getD (i + 1) ⟨[], none⟩).left_hash =
            layerHash hf28 (cexProof.getD i ⟨[], none⟩)) ∧
       layerHash hf28 (cexProof.getLastD ⟨[], none⟩) = cexA)) :=
  ⟨by decide, is_proof_characterization hf28 cexProof cexA (by decide)⟩

/-- Claim C6: on the single-leaf tree over the leaf `[0x00, 0x00]` the tree
itself is fine (one layer, root = hash of the leaf), but `get_proof` of the
leaf's hash does not return a length-1 proof — it panics (`layers[1]` on a
one-layer tree, modelled as `none`), so no proof exists to verify. -/
theorem single_leaf_get_proof_panics :
    (MerkleTreeL.new hf28 [[0, 0]]).map
      (fun t => (t.root == hf28 [0, 0], t.layers.length, getProof hf28 t (hf28 [0, 0]))) =
      some (true, 1, none) := by
  decide

/-- Claim C7 (counterexample): on a digest starting `0x40 0x00 0xff…`, the
true number of leading zero bits is 1 (the claim's value would be `2^1`),
but `Entry::difficulty` keeps adding the per-byte `leading_zeros` of every
byte below `0x80` — including bytes after the first set bit — and returns
`2^9`. -/
theorem entry_difficulty_not_pow_of_leading_zero_bits :
    Entry.difficulty (fun _ => c7digest) e1 = .ok 512 ∧
    leadingZeroBits c7digest = 1 ∧ (512 : Nat) ≠ 2 ^ 1 := by
  decide

/-- Claim C7 (amended): `Entry::difficulty` equals `2^c` where `c` is the
sum of the per-byte `leading_zeros` over the longest prefix of digest bytes
whose high bit is clear (not the number of leading zero bits of the
digest). -/
theorem entry_difficulty_prefix_sum (blake : Bytes → Bytes) (e : Entry)
    (bs : Bytes) (henc : e.toBytes = .ok bs) :
    e.difficulty blake =
      .ok (2 ^ ((((blake bs).takeWhile (fun b => decide (b < 128))).map lz8).sum)) := by
  unfold Entry.difficulty Entry.hashDigest
  rw [henc]
  simp only [Except.map]
  rw [entryLzLoop_eq_sum]
  simp

theorem entry_difficulty_prefix_sum_witness :
    e1.toBytes = .ok e1bytes ∧
    Entry.difficulty (fun _ => c7digest) e1 =
      .ok (2 ^ (((c7digest.takeWhile (fun b => decide (b < 128))).map lz8).sum)) :=
  ⟨by decide, entry_difficulty_prefix_sum (fun _ => c7digest) e1 e1bytes (by decide)⟩

/-- Claim C8: for every entry satisfying the structural constraints,
deserializing its serialization succeeds and returns an equal entry. -/
theorem entry_codec_roundtrip (e : Entry) (bs : Bytes) (hwf : e.WF)
    (henc : e.toBytes = .ok bs) : Entry.fromBytes bs = some e := by
  have h := entry_decode_encode e hwf bs [] henc
  simpa using h

theorem entry_codec_roundtrip_witness :
    e1.WF ∧ e1.toBytes = .ok e1bytes ∧ Entry.fromBytes e1bytes = some e1 :=
  ⟨by decide, by decide, entry_codec_roundtrip e1 e1bytes (by decide) (by decide)⟩

/-- Claim C9 (counterexample): `Entry::from_bytes` accepts an input with a
trailing extra byte beyond the canonical layout — it succeeds and returns
the entry decoded from the canonical prefix (the source has no error path
at all). -/
theorem entry_decode_accepts_trailing_byte :
    Entry.fromBytes (e1bytes ++ [171]) = some e1 := by
  decide

/-- Claim C9 (amended): extra trailing bytes are silently ignored —
deserialization of a well-formed serialization followed by any suffix
succeeds and returns the original entry. -/
theorem entry_decode_ignores_trailing (e : Entry) (bs extra : Bytes)
    (hwf : e.WF) (henc : e.toBytes = .ok bs) :
    Entry.fromBytes (bs ++ extra) = some e :=
  entry_decode_encode e hwf bs extra henc

theorem entry_decode_ignores_trailing_witness :
    e1.WF ∧ e1.toBytes = .ok e1bytes ∧
    Entry.fromBytes (e1bytes ++ [9, 9]) = some e1 :=
  ⟨by decide, by decide,
   entry_decode_ignores_trailing e1 e1bytes [9, 9] (by decide) (by decide)⟩

/-- Claim C10: `Entry::from_bytes` is not total — on the empty input, on a
bare length byte, and on an input truncated before the output hash it
panics (an `unwrap` of `None` / a failed `try_into`, modelled as `none`)
instead of returning an error value. -/
theorem entry_from_bytes_panics_on_truncated :
    Entry.fromBytes [] = none ∧ Entry.fromBytes [1] = none ∧
    Entry.fromBytes [1, 0, 0, 0, 0, 0, 0, 0, 0] = none := by
  decide

/- Helper lemmas for the add_block check-order theorem. -/

theorem entryDifficulty_ok_of_difficulty_ok {F : Type} (ops : FloatOps F)
    (cr : Crypto) (b : Block F) (d : F) (h : b.difficulty ops cr = .ok d) :
    ∃ ed, b.entryDifficulty ops cr = .ok ed := by
  cases hed : b.entryDifficulty ops cr with
  | error e =>
    unfold Block.difficulty at h
    rw [hed] at h
    simp at h
  | ok ed => exact ⟨ed, rfl⟩

theorem sumEntry_ok_entriesToBytes {F : Type} (ops : FloatOps F) (cr : Crypto) :
    ∀ (es : List Entry) (acc : F),
      (sumEntryDifficulty ops cr es acc).isOk = true → (entriesToBytes es).isOk = true := by
  intro es
  induction es with
  | nil => intro acc _; simp [entriesToBytes, Except.isOk, Except.toBool]
  | cons e r ih =>
    intro acc h
    unfold sumEntryDifficulty at h
    unfold entriesToBytes
    cases htb : e.toBytes with
    | error er =>
      have hde : Entry.difficulty cr.blake2b512 e = .error er := by
        unfold Entry.difficulty Entry.hashDigest
        rw [htb]
        rfl
      rw [hde] at h
      simp [Except.isOk, Except.toBool] at h
    | ok bs =>
      have hde : Entry.difficulty cr.blake2b512 e =
          .ok (2 ^ entryLzLoop (cr.blake2b512 bs) 0) := by
        unfold Entry.difficulty Entry.hashDigest
        rw [htb]
        rfl
      rw [hde] at h
      have hr := ih _ h
      cases hrr : entriesToBytes r with
      | error er => rw [hrr] at hr; simp [Except.isOk, Except.toBool] at hr
      | ok ls => simp [Except.isOk, Except.toBool]

theorem entryDifficulty_ok_entriesToBytes {F : Type} (ops : FloatOps F)
    (cr : Crypto) (b : Block F) (ed : F) (h : b.entryDifficulty ops cr = .ok ed) :
    ∃ ls, entriesToBytes b.entries = .ok ls := by
  unfold Block.entryDifficulty at h
  cases hs : sumEntryDifficulty ops cr b.entries (ops.ofNat 0) with
  | error er => rw [hs] at h; simp at h
  | ok s =>
    have := sumEntry_ok_entriesToBytes ops cr b.entries (ops.ofNat 0)
      (by rw [hs]; rfl)
    cases he : entriesToBytes b.entries with
    | error er => rw [he] at this; simp [Except.isOk, Except.toBool] at this
    | ok ls => exact ⟨ls, rfl⟩

theorem entriesToBytes_length : ∀ (es : List Entry) (ls : List Bytes),
    entriesToBytes es = .ok ls → ls.length = es.length := by
  intro es
  induction es with
  | nil =>
    intro ls h
    unfold entriesToBytes at h
    simp at h
    simp [h]
  | cons e r ih =>
    intro ls h
    unfold entriesToBytes at h
    cases htb : e.toBytes with
    | error er => rw [htb] at h; simp at h
    | ok bs =>
      rw [htb] at h
      cases hrr : entriesToBytes r with
      | error er => rw [hrr] at h; simp at h
      | ok rest =>
        rw [hrr] at h
        simp at h
        subst h
        simp [ih rest hrr]

theorem merkleTree_new_isSome (hf : Bytes → Bytes) (ls : List Bytes)
    (hne : ls ≠ []) : (MerkleTreeL.new hf ls).isSome = true := by
  unfold MerkleTreeL.new
  have h1 : layerFromLeafs hf ls ≠ [] := by
    intro h
    apply hne
    have hl := congrArg List.length h
    simp [layerFromLeafs] at hl
    exact hl
  have h2 := buildLayersFuel_isSome hf (layerFromLeafs hf ls).length
    (layerFromLeafs hf ls) h1 le_rfl
  cases hb : buildLayersFuel hf (layerFromLeafs hf ls).length (layerFromLeafs hf ls) with
  | none => rw [hb] at h2; simp at h2
  | some l => simp

theorem isMerkleRootValid_isSome {F : Type} (cr : Crypto) (b : Block F)
    (hne : b.entries ≠ []) (ls : List Bytes)
    (hok : entriesToBytes b.entries = .ok ls) :
    (b.isMerkleRootValid cr).isSome = true := by
  unfold Block.isMerkleRootValid
  rw [hok]
  have hlsne : ls ≠ [] := by
    intro h
    subst h
    have := entriesToBytes_length b.entries [] hok
    exact hne (List.eq_nil_of_length_eq_zero this.symm)
  have h2 := merkleTree_new_isSome cr.merkleHash ls hlsne
  cases ht : MerkleTreeL.new cr.merkleHash ls with
  | none => rw [ht] at h2; simp at h2
  | some t =>
    show (match MerkleTreeL.new cr.merkleHash ls with
      | none => (none : Option Bool)
      | some t => some (t.root == b.header.merkle_root)).isSome = true
    rw [ht]
    rfl

theorem getBlockHash_error_shape {F : Type} (db : Db F) (n : Nat) (e : ChainErr)
    (h : getBlockHash db n = .error e) :
    e = .CantFindHashFromHeight ∨ e = .BlockHeaderDoesntExist ∨ e = .wrapped .Other := by
  unfold getBlockHash at h
  rcases hg : dbGet db (makeKey 3 (natToLE 8 n)) with _ | v
  · rw [hg] at h; simp at h; simp [h]
  · rw [hg] at h
    cases v with
    | raw bs => simp at h
    | hdr hd => simp at h; simp [h]

theorem getBlockHeader_error_shape {F : Type} (db : Db F) (k : Bytes) (e : ChainErr)
    (h : getBlockHeader db k = .error e) :
    e = .CantFindHashFromHeight ∨ e = .BlockHeaderDoesntExist ∨ e = .wrapped .Other := by
  unfold getBlockHeader at h
  rcases hg : dbGet db (makeKey 2 k) with _ | v
  · rw [hg] at h; simp at h; simp [h]
  · rw [hg] at h
    cases v with
    | raw bs => simp at h; simp [h]
    | hdr hd => simp at h

theorem prevNHeaders_error_shape {F : Type} (db : Db F) (height : Nat) :
    ∀ (n i : Nat) (e : ChainErr), prevNHeaders db height n i = .error e →
      e = .CantFindHashFromHeight ∨ e = .BlockHeaderDoesntExist ∨ e = .wrapped .Other := by
  intro n
  induction n with
  | zero => intro i e h; unfold prevNHeaders at h; simp at h
  | succ n ih =>
    intro i e h
    unfold prevNHeaders at h
    by_cases hcmp : (height : Int) - i < 1
    · rw [if_pos hcmp] at h; simp at h
    · rw [if_neg hcmp] at h
      cases hgh : getBlockHash db ((height : Int) - i).toNat with
      | error e2 =>
        rw [hgh] at h
        simp at h
        subst h
        exact getBlockHash_error_shape db _ _ hgh
      | ok bh =>
        rw [hgh] at h
        dsimp only at h
        cases ghd : getBlockHeader db bh with
        | error e2 =>
          rw [ghd] at h
          simp at h
          subst h
          exact getBlockHeader_error_shape db _ _ ghd
        | ok hd =>
          rw [ghd] at h
          dsimp only at h
          cases hp : prevNHeaders db height n (i + 1) with
          | error e2 =>
            rw [hp] at h
            simp at h
            subst h
            exact ih _ _ hp
          | ok rest => rw [hp] at h; simp at h

theorem updateMedianTimestamp_error_shape {F : Type} (ch c : Chain F) (e : ChainErr)
    (h : updateMedianTimestamp ch = (c, some e)) :
    e = .CantFindHashFromHeight ∨ e = .BlockHeaderDoesntExist ∨ e = .wrapped .Other := by
  unfold updateMedianTimestamp at h
  by_cases h1 : ch.info.height < 1
  · rw [if_pos h1] at h; simp at h
  · rw [if_neg h1] at h
    simp only at h
    set idx : Int := if (ch.info.height : Int) - 11 < 1 then 1 else (ch.info.height : Int) - 11 with hidx
    cases hgh : getBlockHash ch.db idx.toNat with
    | error e2 =>
      rw [hgh] at h
      simp at h
      rcases h with ⟨_, h2⟩
      subst h2
      exact getBlockHash_error_shape ch.db _ _ hgh
    | ok bh =>
      rw [hgh] at h
      dsimp only at h
      cases ghd : getBlockHeader ch.db bh with
      | error e2 =>
        rw [ghd] at h
        simp at h
        rcases h with ⟨_, h2⟩
        subst h2
        exact getBlockHeader_error_shape ch.db _ _ ghd
      | ok hd => rw [ghd] at h; simp at h

theorem updateDifficulty_error_shape {F : Type} (ops : FloatOps F) (ch c : Chain F)
    (e : ChainErr) (h : updateDifficulty ops ch = (c, some e)) :
    e = .CantFindHashFromHeight ∨ e = .BlockHeaderDoesntExist ∨ e = .wrapped .Other := by
  unfold updateDifficulty at h
  by_cases h1 : ch.info.height < 2
  · rw [if_pos h1] at h; simp at h
  · rw [if_neg h1] at h
    cases hp : getPreviousNBlockHeaders ch.db ch.info.height 750 with
    | error e2 =>
      rw [hp] at h
      simp at h
      rcases h with ⟨_, h2⟩
      subst h2
      exact prevNHeaders_error_shape ch.db ch.info.height 750 0 _ hp
    | ok hs => rw [hp] at h; simp at h

theorem updateEntryDifficultyLimits_error_shape {F : Type} (ops : FloatOps F)
    (ch c : Chain F) (e : ChainErr)
    (h : updateEntryDifficultyLimits ops ch = (c, some e)) :
    e = .CantFindHashFromHeight ∨ e = .BlockHeaderDoesntExist ∨ e = .wrapped .Other := by
  unfold updateEntryDifficultyLimits at h
  by_cases h1 : ch.info.height < 2
  · rw [if_pos h1] at h; simp at h
  · rw [if_neg h1] at h
    cases hp : getPreviousNBlockHeaders ch.db ch.info.height 750 with
    | error e2 =>
      rw [hp] at h
      simp at h
      rcases h with ⟨_, h2⟩
      subst h2
      exact prevNHeaders_error_shape ch.db ch.info.height 750 0 _ hp
    | ok hs => rw [hp] at h; simp at h

theorem runControllers_error_shape {F : Type} (ops : FloatOps F) (ch c : Chain F)
    (e : ChainErr) (h : runControllers ops ch = (c, some e)) :
    e = .CantFindHashFromHeight ∨ e = .BlockHeaderDoesntExist ∨ e = .wrapped .Other := by
  unfold runControllers at h
  rcases hm : updateMedianTimestamp ch with ⟨c1, e1⟩
  rw [hm] at h
  cases e1 with
  | some e1 =>
    simp at h
    rcases h with ⟨_, h2⟩
    subst h2
    exact updateMedianTimestamp_error_shape ch c1 e1 hm
  | none =>
    simp only at h
    rcases hd : updateDifficulty ops c1 with ⟨c2, e2⟩
    rw [hd] at h
    cases e2 with
    | some e2 =>
      simp at h
      rcases h with ⟨_, h2⟩
      subst h2
      exact updateDifficulty_error_shape ops c1 c2 e2 hd
    | none =>
      simp only at h
      exact updateEntryDifficultyLimits_error_shape ops c2 c e h

theorem applyBlock_err_shape {F : Type} (ops : FloatOps F) (ch1 : Chain F) :
    (applyBlock ops ch1).2 = none ∨
    (applyBlock ops ch1).2 = some .CantFindHashFromHeight ∨
    (applyBlock ops ch1).2 = some .BlockHeaderDoesntExist ∨
    (applyBlock ops ch1).2 = some (.wrapped .Other) := by
  unfold applyBlock
  rcases hrc : runControllers ops ch1 with ⟨c2, oe⟩
  cases oe with
  | some e =>
    have h := runControllers_error_shape ops ch1 c2 e hrc
    rcases h with h | h | h <;> subst h <;> simp
  | none =>
    by_cases hmod : c2.info.height % RANDOMX_VM_KEY_LIFETIME = 0
    · simp [hmod]
    · simp [hmod]

theorem sumEntryDifficulty_congr {F : Type} (ops : FloatOps F) (cr cr' : Crypto)
    (hb : cr'.blake2b512 = cr.blake2b512) :
    ∀ (es : List Entry) (acc : F),
      sumEntryDifficulty ops cr' es acc = sumEntryDifficulty ops cr es acc := by
  intro es
  induction es with
  | nil => intro acc; rfl
  | cons e r ih =>
    intro acc
    unfold sumEntryDifficulty
    rw [hb]
    cases Entry.difficulty cr.blake2b512 e with
    | error er => rfl
    | ok d => exact ih _

theorem entryDifficulty_congr {F : Type} (ops : FloatOps F) (cr cr' : Crypto)
    (b : Block F) (hb : cr'.blake2b512 = cr.blake2b512) :
    b.entryDifficulty ops cr' = b.entryDifficulty ops cr := by
  unfold Block.entryDifficulty
  rw [sumEntryDifficulty_congr ops cr cr' hb]

theorem difficulty_congr {F : Type} (ops : FloatOps F) (cr cr' : Crypto)
    (b : Block F) (hb : cr'.blake2b512 = cr.blake2b512) :
    b.difficulty ops cr' = b.difficulty ops cr := by
  unfold Block.difficulty
  rw [entryDifficulty_congr ops cr cr' b hb]

theorem isMerkleRootValid_congr {F : Type} (cr cr' : Crypto) (b : Block F)
    (hm : cr'.merkleHash = cr.merkleHash) :
    b.isMerkleRootValid cr' = b.isMerkleRootValid cr := by
  unfold Block.isMerkleRootValid
  rw [hm]

/-- Claim C3 (amended): `add_block` evaluates the spec's thirteen checks in
exactly the spec's order — whenever some check fails, the call returns the
error of the first failing check (in the order recorded by `checkList`)
with the state unchanged; a block failing the Merkle-root check is rejected
with `InvalidMerkleRoot` for every choice of the signature primitives, i.e.
before signature verification runs; and when no check fails the only
possible errors are the post-write controller errors.  (The claim's further
assertion that mutating one entry byte always yields `InvalidMerkleRoot` is
refuted by `add_block_entry_mutation_hits_entry_difficulty`: such a
mutation can instead change the recomputed entry difficulty and trip the
earlier `BlockEntryDifficultyWrong` check.) -/
theorem add_block_check_order {F : Type} (ops : FloatOps F) (cr : Crypto)
    (cod : Codec F) (ch : Chain F) (b : Block F) (hne : b.entries ≠ []) :
    (∀ e, firstFailingCheck ops cr cod ch b = some e →
        addBlock ops cr cod ch b = some (ch, some e)) ∧
    (firstFailingCheck ops cr cod ch b = some .InvalidMerkleRoot →
      ∀ pk sg bv,
        addBlock ops { cr with pkParseOk := pk, sigParseOk := sg, blsVerify := bv }
          cod ch b = some (ch, some .InvalidMerkleRoot)) ∧
    (firstFailingCheck ops cr cod ch b = none →
      ∃ p, addBlock ops cr cod ch b = some p ∧
        (p.2 = none ∨ p.2 = some .CantFindHashFromHeight ∨
         p.2 = some .BlockHeaderDoesntExist ∨ p.2 = some (.wrapped .Other))) := by
  by_cases hc1 : (getBlock cod ch.db b.hash).isOk
  · have hFF : firstFailingCheck ops cr cod ch b = some .BlockAlreadyExists := by
      simp [firstFailingCheck, checkList, List.findSome?, hc1]
    have hAB : addBlock ops cr cod ch b = some (ch, some .BlockAlreadyExists) := by
      simp [addBlock, hc1]
    refine ⟨?_, ?_, ?_⟩
    · intro e he
      rw [hFF] at he
      injection he with he
      subst he
      exact hAB
    · intro hmr; rw [hFF] at hmr; simp at hmr
    · intro hn; rw [hFF] at hn; simp at hn
  · by_cases hc2 : ch.info.height + 1 < b.header.height
    · have hFF : firstFailingCheck ops cr cod ch b = some .SkippedBlock := by
        simp [firstFailingCheck, checkList, List.findSome?, hc1, hc2]
      have hAB : addBlock ops cr cod ch b = some (ch, some .SkippedBlock) := by
        simp [addBlock, hc1, hc2]
      refine ⟨?_, ?_, ?_⟩
      · intro e he
        rw [hFF] at he
        injection he with he
        subst he
        exact hAB
      · intro hmr; rw [hFF] at hmr; simp at hmr
      · intro hn; rw [hFF] at hn; simp at hn
    · by_cases hc3 : b.header.height < ch.info.height + 1
      · have hFF : firstFailingCheck ops cr cod ch b = some .BlockNotAtTop := by
          simp [firstFailingCheck, checkList, List.findSome?, hc1, hc2, hc3]
        have hAB : addBlock ops cr cod ch b = some (ch, some .BlockNotAtTop) := by
          simp [addBlock, hc1, hc2, hc3]
        refine ⟨?_, ?_, ?_⟩
        · intro e he
          rw [hFF] at he
          injection he with he
          subst he
          exact hAB
        · intro hmr; rw [hFF] at hmr; simp at hmr
        · intro hn; rw [hFF] at hn; simp at hn
      · by_cases hc4 : b.header.previous_hash = ch.info.top_block_hash
        case neg =>
          have hFF : firstFailingCheck ops cr cod ch b = some .BlockPreviousHashWrong := by
            simp [firstFailingCheck, checkList, List.findSome?, hc1, hc2, hc3, hc4]
          have hAB : addBlock ops cr cod ch b = some (ch, some .BlockPreviousHashWrong) := by
            simp [addBlock, hc1, hc2, hc3, hc4]
          refine ⟨?_, ?_, ?_⟩
          · intro e he
            rw [hFF] at he
            injection he with he
            subst he
            exact hAB
          · intro hmr; rw [hFF] at hmr; simp at hmr
          · intro hn; rw [hFF] at hn; simp at hn
        case pos =>
        by_cases hc5 : ops.beq b.header.difficulty_target ch.info.difficulty
        case neg =>
          have hFF : firstFailingCheck ops cr cod ch b =
              some .BlockTargetDifficultyWrong := by
            simp [firstFailingCheck, checkList, List.findSome?, hc1, hc2, hc3, hc4, hc5]
          have hAB : addBlock ops cr cod ch b =
              some (ch, some .BlockTargetDifficultyWrong) := by
            simp [addBlock, hc1, hc2, hc3, hc4, hc5]
          refine ⟨?_, ?_, ?_⟩
          · intro e he
            rw [hFF] at he
            injection he with he
            subst he
            exact hAB
          · intro hmr; rw [hFF] at hmr; simp at hmr
          · intro hn; rw [hFF] at hn; simp at hn
        case pos =>
        by_cases hc6 : b.header.timestamp < ch.info.past_median_timestamp
        case pos =>
          have hFF : firstFailingCheck ops cr cod ch b =
              some .BlockTimestampTooEarly := by
            simp [firstFailingCheck, checkList, List.findSome?, hc1, hc2, hc3, hc4, hc5, hc6]
          have hAB : addBlock ops cr cod ch b =
              some (ch, some .BlockTimestampTooEarly) := by
            simp [addBlock, hc1, hc2, hc3, hc4, hc5, hc6]
          refine ⟨?_, ?_, ?_⟩
          · intro e he
            rw [hFF] at he
            injection he with he
            subst he
            exact hAB
          · intro hmr; rw [hFF] at hmr; simp at hmr
          · intro hn; rw [hFF] at hn; simp at hn
        case neg =>
        by_cases hc7 : ch.info.network_adjusted_time + 3600 < b.header.timestamp
        case pos =>
          have hFF : firstFailingCheck ops cr cod ch b = some .BlockInFuture := by
            simp [firstFailingCheck, checkList, List.findSome?, hc1, hc2, hc3, hc4, hc5,
              hc6, hc7]
          have hAB : addBlock ops cr cod ch b = some (ch, some .BlockInFuture) := by
            simp [addBlock, hc1, hc2, hc3, hc4, hc5, hc6, hc7]
          refine ⟨?_, ?_, ?_⟩
          · intro e he
            rw [hFF] at he
            injection he with he
            subst he
            exact hAB
          · intro hmr; rw [hFF] at hmr; simp at hmr
          · intro hn; rw [hFF] at hn; simp at hn
        case neg =>
        cases hdiff : b.difficulty ops cr with
        | error de =>
          have hFF : firstFailingCheck ops cr cod ch b = some (.wrapped de) := by
            simp [firstFailingCheck, checkList, List.findSome?, hc1, hc2, hc3, hc4, hc5,
              hc6, hc7, hdiff]
          have hAB : addBlock ops cr cod ch b = some (ch, some (.wrapped de)) := by
            simp [addBlock, hc1, hc2, hc3, hc4, hc5, hc6, hc7, hdiff]
          refine ⟨?_, ?_, ?_⟩
          · intro e he
            rw [hFF] at he
            injection he with he
            subst he
            exact hAB
          · intro hmr; rw [hFF] at hmr; simp at hmr
          · intro hn; rw [hFF] at hn; simp at hn
        | ok d =>
        by_cases hc8 : ops.blt d ch.info.difficulty
        case pos =>
          have hFF : firstFailingCheck ops cr cod ch b = some .BlockNotEnoughWork := by
            simp [firstFailingCheck, checkList, List.findSome?, hc1, hc2, hc3, hc4, hc5,
              hc6, hc7, hdiff, hc8]
          have hAB : addBlock ops cr cod ch b = some (ch, some .BlockNotEnoughWork) := by
            simp [addBlock, hc1, hc2, hc3, hc4, hc5, hc6, hc7, hdiff, hc8]
          refine ⟨?_, ?_, ?_⟩
          · intro e he
            rw [hFF] at he
            injection he with he
            subst he
            exact hAB
          · intro hmr; rw [hFF] at hmr; simp at hmr
          · intro hn; rw [hFF] at hn; simp at hn
        case neg =>
        obtain ⟨ed, hed⟩ := entryDifficulty_ok_of_difficulty_ok ops cr b d hdiff
        by_cases hc9 : ops.beq b.header.entry_difficulty ed
        case neg =>
          have hFF : firstFailingCheck ops cr cod ch b =
              some .BlockEntryDifficultyWrong := by
            simp [firstFailingCheck, checkList, List.findSome?, hc1, hc2, hc3, hc4, hc5,
              hc6, hc7, hdiff, hc8, hed, hc9]
          have hAB : addBlock ops cr cod ch b =
              some (ch, some .BlockEntryDifficultyWrong) := by
            simp [addBlock, hc1, hc2, hc3, hc4, hc5, hc6, hc7, hdiff, hc8, hed, hc9]
          refine ⟨?_, ?_, ?_⟩
          · intro e he
            rw [hFF] at he
            injection he with he
            subst he
            exact hAB
          · intro hmr; rw [hFF] at hmr; simp at hmr
          · intro hn; rw [hFF] at hn; simp at hn
        case pos =>
        by_cases hc10 : ops.beq b.header.max_allowed_entry_difficulty
            ch.info.max_allowed_entry_difficulty
        case neg =>
          have hFF : firstFailingCheck ops cr cod ch b =
              some .BlockMaxAllowedEntryDifficultyWrong := by
            simp [firstFailingCheck, checkList, List.findSome?, hc1, hc2, hc3, hc4, hc5,
              hc6, hc7, hdiff, hc8, hed, hc9, hc10]
          have hAB : addBlock ops cr cod ch b =
              some (ch, some .BlockMaxAllowedEntryDifficultyWrong) := by
            simp [addBlock, hc1, hc2, hc3, hc4, hc5, hc6, hc7, hdiff, hc8, hed, hc9, hc10]
          refine ⟨?_, ?_, ?_⟩
          · intro e he
            rw [hFF] at he
            injection he with he
            subst he
            exact hAB
          · intro hmr; rw [hFF] at hmr; simp at hmr
          · intro hn; rw [hFF] at hn; simp at hn
        case pos =>
        obtain ⟨ls, hls⟩ := entryDifficulty_ok_entriesToBytes ops cr b ed hed
        have hmSome := isMerkleRootValid_isSome cr b hne ls hls
        cases hm : b.isMerkleRootValid cr with
        | none => rw [hm] at hmSome; simp at hmSome
        | some valid =>
        have htb : b.toBytesB cod =
            .ok (cod.encBlock ls b.header b.randomx_input b.hash) := by
          unfold Block.toBytesB
          rw [hls]
        cases valid with
        | false =>
          have hFF : firstFailingCheck ops cr cod ch b = some .InvalidMerkleRoot := by
            simp [firstFailingCheck, checkList, List.findSome?, hc1, hc2, hc3, hc4, hc5,
              hc6, hc7, hdiff, hc8, hed, hc9, hc10, hm]
          have hAB : addBlock ops cr cod ch b = some (ch, some .InvalidMerkleRoot) := by
            simp [addBlock, hc1, hc2, hc3, hc4, hc5, hc6, hc7, hdiff, hc8, hed, hc9,
              hc10, hm]
          refine ⟨?_, ?_, ?_⟩
          · intro e he
            rw [hFF] at he
            injection he with he
            subst he
            exact hAB
          · intro _ pk sg bv
            have hdiff2 : b.difficulty ops
                { cr with pkParseOk := pk, sigParseOk := sg, blsVerify := bv } =
                .ok d := by
              rw [difficulty_congr ops cr
                { cr with pkParseOk := pk, sigParseOk := sg, blsVerify := bv } b rfl]
              exact hdiff
            have hed2 : b.entryDifficulty ops
                { cr with pkParseOk := pk, sigParseOk := sg, blsVerify := bv } =
                .ok ed := by
              rw [entryDifficulty_congr ops cr
                { cr with pkParseOk := pk, sigParseOk := sg, blsVerify := bv } b rfl]
              exact hed
            have hm2 : b.isMerkleRootValid
                { cr with pkParseOk := pk, sigParseOk := sg, blsVerify := bv } =
                some false := by
              rw [isMerkleRootValid_congr cr
                { cr with pkParseOk := pk, sigParseOk := sg, blsVerify := bv } b rfl]
              exact hm
            simp [addBlock, hc1, hc2, hc3, hc4, hc5, hc6, hc7, hdiff2, hc8, hed2, hc9,
              hc10, hm2]
          · intro hn; rw [hFF] at hn; simp at hn
        | true =>
        by_cases hc11 : ch.info.block_size_cap <
            (cod.encBlock ls b.header b.randomx_input b.hash).length
        case pos =>
          have hFF : firstFailingCheck ops cr cod ch b = some .BlockTooBig := by
            simp [firstFailingCheck, checkList, List.findSome?, hc1, hc2, hc3, hc4, hc5,
              hc6, hc7, hdiff, hc8, hed, hc9, hc10, hm, htb, hc11]
          have hAB : addBlock ops cr cod ch b = some (ch, some .BlockTooBig) := by
            simp [addBlock, hc1, hc2, hc3, hc4, hc5, hc6, hc7, hdiff, hc8, hed, hc9,
              hc10, hm, htb, hc11]
          refine ⟨?_, ?_, ?_⟩
          · intro e he
            rw [hFF] at he
            injection he with he
            subst he
            exact hAB
          · intro hmr; rw [hFF] at hmr; simp at hmr
          · intro hn; rw [hFF] at hn; simp at hn
        case neg =>
        cases hsig : b.checkSignature cr ch.db with
        | error se =>
          have hFF : firstFailingCheck ops cr cod ch b = some (.wrapped se) := by
            simp [firstFailingCheck, checkList, List.findSome?, hc1, hc2, hc3, hc4, hc5,
              hc6, hc7, hdiff, hc8, hed, hc9, hc10, hm, htb, hc11, hsig]
          have hAB : addBlock ops cr cod ch b = some (ch, some (.wrapped se)) := by
            simp [addBlock, hc1, hc2, hc3, hc4, hc5, hc6, hc7, hdiff, hc8, hed, hc9,
              hc10, hm, htb, hc11, hsig]
          refine ⟨?_, ?_, ?_⟩
          · intro e he
            rw [hFF] at he
            injection he with he
            subst he
            exact hAB
          · intro hmr; rw [hFF] at hmr; simp at hmr
          · intro hn; rw [hFF] at hn; simp at hn
        | ok u =>
        by_cases hc13 : Block.calcHash ops cr b = b.hash
        case neg =>
          have hFF : firstFailingCheck ops cr cod ch b = some .InvalidHash := by
            simp [firstFailingCheck, checkList, List.findSome?, hc1, hc2, hc3, hc4, hc5,
              hc6, hc7, hdiff, hc8, hed, hc9, hc10, hm, htb, hc11, hsig, hc13]
          have hAB : addBlock ops cr cod ch b = some (ch, some .InvalidHash) := by
            simp [addBlock, hc1, hc2, hc3, hc4, hc5, hc6, hc7, hdiff, hc8, hed, hc9,
              hc10, hm, htb, hc11, hsig, hc13]
          refine ⟨?_, ?_, ?_⟩
          · intro e he
            rw [hFF] at he
            injection he with he
            subst he
            exact hAB
          · intro hmr; rw [hFF] at hmr; simp at hmr
          · intro hn; rw [hFF] at hn; simp at hn
        case pos =>
          have hFF : firstFailingCheck ops cr cod ch b = none := by
            simp [firstFailingCheck, checkList, List.findSome?, hc1, hc2, hc3, hc4, hc5,
              hc6, hc7, hdiff, hc8, hed, hc9, hc10, hm, htb, hc11, hsig, hc13]
          have hAB : addBlock ops cr cod ch b = some (applyBlock ops
              ⟨{ ch.info with
                   height := ch.info.height + 1,
                   top_block_hash := b.hash,
                   is_empty := false },
               dbPut (dbPut (dbPut ch.db (makeKey 1 b.hash)
                   (.raw (cod.encBlock ls b.header b.randomx_input b.hash)))
                 (makeKey 3 (natToLE 8 b.header.height)) (.raw b.hash))
                 (makeKey 2 b.hash) (.hdr b.header),
               ch.cacheKey⟩) := by
            simp [addBlock, hc1, hc2, hc3, hc4, hc5, hc6, hc7, hdiff, hc8, hed, hc9,
              hc10, hm, htb, hc11, hsig, hc13]
          refine ⟨?_, ?_, ?_⟩
          · intro e he; rw [hFF] at he; simp at he
          · intro hmr; rw [hFF] at hmr; simp at hmr
          · intro _
            exact ⟨_, hAB, applyBlock_err_shape ops _⟩

/-- Claim C3 (counterexample to the claim as stated): `b1` is an otherwise
valid candidate (its append succeeds), and `b1mut` differs from it in
exactly one byte of one entry's serialization, yet `add_block` rejects it
with `BlockEntryDifficultyWrong` — not `InvalidMerkleRoot` — because the
mutation changes the recomputed per-entry difficulty and that check runs
before the Merkle-root check. -/
theorem add_block_entry_mutation_hits_entry_difficulty :
    (addBlock ratOps c3cr c1cod st1 b1).map Prod.snd = some none ∧
    addBlock ratOps c3cr c1cod st1 b1mut = some (st1, some .BlockEntryDifficultyWrong) ∧
    e1bytes.length = e1mutBytes.length ∧
    (e1bytes.zip e1mutBytes).countP (fun p => decide (p.1 ≠ p.2)) = 1 := by
  decide

theorem add_block_check_order_witness :
    b1.entries ≠ [] ∧
    ((∀ e, firstFailingCheck ratOps c1cr c1cod st1 b1 = some e →
        addBlock ratOps c1cr c1cod st1 b1 = some (st1, some e)) ∧
     (firstFailingCheck ratOps c1cr c1cod st1 b1 = some .InvalidMerkleRoot →
       ∀ pk sg bv,
         addBlock ratOps
           { c1cr with pkParseOk := pk, sigParseOk := sg, blsVerify := bv }
           c1cod st1 b1 = some (st1, some .InvalidMerkleRoot)) ∧
     (firstFailingCheck ratOps c1cr c1cod st1 b1 = none →
       ∃ p, addBlock ratOps c1cr c1cod st1 b1 = some p ∧
         (p.2 = none ∨ p.2 = some .CantFindHashFromHeight ∨
          p.2 = some .BlockHeaderDoesntExist ∨ p.2 = some (.wrapped .Other)))) :=
  ⟨by decide, add_block_check_order ratOps c1cr c1cod st1 b1 (by decide)⟩

/- Store lemmas for the append/rollback theorem. -/

theorem dbGet_put_same {F : Type} (db : Db F) (k : Bytes) (v : DbVal F) :
    dbGet (dbPut db k v) k = some v := by
  simp [dbGet, dbPut, List.find?]

theorem dbGet_put_other {F : Type} (db : Db F) (k k' : Bytes) (v : DbVal F)
    (h : k' ≠ k) : dbGet (dbPut db k v) k' = dbGet db k' := by
  simp only [dbGet, dbPut, List.find?]
  have : (k == k') = false := by
    simp [beq_iff_eq]
    intro he
    exact h he.symm
  rw [this]

theorem dbGet_del_same {F : Type} (db : Db F) (k : Bytes) :
    dbGet (dbDel db k) k = none := by
  simp only [dbGet, dbDel]
  have hfind : List.find? (fun p => p.1 == k)
      (db.filter (fun p => ! (p.1 == k))) = none := by
    rw [List.find?_eq_none]
    intro p hp
    have hmem := List.of_mem_filter hp
    simp at hmem
    simp [hmem]
  rw [hfind]
  rfl

theorem dbGet_del_other {F : Type} (db : Db F) (k k' : Bytes) (h : k' ≠ k) :
    dbGet (dbDel db k) k' = dbGet db k' := by
  simp only [dbGet, dbDel]
  induction db with
  | nil => rfl
  | cons p rest ih =>
    rw [List.filter_cons]
    by_cases hpk : p.1 = k
    · rw [if_neg (by simp [hpk])]
      rw [List.find?_cons_of_neg _ (by
        simp [hpk]
        intro he
        exact absurd he.symm h)]
      exact ih
    · rw [if_pos (by simp [hpk])]
      by_cases hpk' : p.1 = k'
      · rw [List.find?_cons_of_pos _ (by simp [hpk']),
          List.find?_cons_of_pos _ (by simp [hpk'])]
      · rw [List.find?_cons_of_neg _ (by simp [hpk']),
          List.find?_cons_of_neg _ (by simp [hpk'])]
        exact ih

theorem makeKey_ne_of_tag {t1 t2 : Nat} (a b : Bytes) (h : t1 ≠ t2) :
    makeKey t1 a ≠ makeKey t2 b := by
  simp [makeKey]
  intro he _
  exact h he

theorem natToLE_inj_of_lt (n m : Nat) (hn : n < 2 ^ 64) (hm : m < 2 ^ 64)
    (h : natToLE 8 n = natToLE 8 m) : n = m := by
  have := congrArg leToNat h
  rw [leToNat_natToLE 8 n (by norm_num at hn ⊢; omega),
      leToNat_natToLE 8 m (by norm_num at hm ⊢; omega)] at this
  exact this

/- Controller congruence and preservation lemmas. -/

theorem getBlockHash_congr {F : Type} (d1 d2 : Db F)
    (hdb : ∀ k, dbGet d1 k = dbGet d2 k) (n : Nat) :
    getBlockHash d1 n = getBlockHash d2 n := by
  unfold getBlockHash
  rw [hdb]

theorem getBlockHeader_congr {F : Type} (d1 d2 : Db F)
    (hdb : ∀ k, dbGet d1 k = dbGet d2 k) (hash : Bytes) :
    getBlockHeader d1 hash = getBlockHeader d2 hash := by
  unfold getBlockHeader
  rw [hdb]

theorem prevNHeaders_congr {F : Type} (d1 d2 : Db F)
    (hdb : ∀ k, dbGet d1 k = dbGet d2 k) (height : Nat) :
    ∀ (n i : Nat), prevNHeaders d1 height n i = prevNHeaders d2 height n i := by
  intro n
  induction n with
  | zero => intro i; rfl
  | succ n ih =>
    intro i
    unfold prevNHeaders
    by_cases hcmp : (height : Int) - i < 1
    · rw [if_pos hcmp, if_pos hcmp]
    · rw [if_neg hcmp, if_neg hcmp, getBlockHash_congr d1 d2 hdb]
      cases getBlockHash d2 ((height : Int) - i).toNat with
      | error e => rfl
      | ok bh =>
        dsimp only
        rw [getBlockHeader_congr d1 d2 hdb]
        cases getBlockHeader d2 bh with
        | error e => rfl
        | ok hd =>
          dsimp only
          rw [ih]

theorem updateMedian_fix_congr {F : Type} (ch cD : Chain F)
    (hfix : updateMedianTimestamp ch = (ch, none))
    (hdb : ∀ k, dbGet cD.db k = dbGet ch.db k)
    (hh : cD.info.height = ch.info.height) (h1 : 1 ≤ ch.info.height) :
    updateMedianTimestamp cD =
      ({ cD with info := { cD.info with
          past_median_timestamp := ch.info.past_median_timestamp } }, none) := by
  unfold updateMedianTimestamp at hfix ⊢
  rw [if_neg (by omega)] at hfix
  rw [if_neg (by omega : ¬ cD.info.height < 1)]
  rw [hh, getBlockHash_congr cD.db ch.db hdb]
  cases hgh : getBlockHash ch.db
      ((if (ch.info.height : Int) - 11 < 1 then 1
        else (ch.info.height : Int) - 11).toNat) with
  | error e => rw [hgh] at hfix; simp at hfix
  | ok bh =>
    rw [hgh] at hfix
    dsimp only at hfix
    dsimp only
    rw [getBlockHeader_congr cD.db ch.db hdb]
    cases ghd : getBlockHeader ch.db bh with
    | error e => rw [ghd] at hfix; simp at hfix
    | ok hd =>
      rw [ghd] at hfix
      dsimp only at hfix
      dsimp only
      have hts := congrArg (fun p => (Prod.fst p).info.past_median_timestamp) hfix
      dsimp at hts
      rw [hts]

theorem updateDifficulty_fix_congr {F : Type} (ops : FloatOps F) (ch cD : Chain F)
    (hfix : updateDifficulty ops ch = (ch, none))
    (hdb : ∀ k, dbGet cD.db k = dbGet ch.db k)
    (hh : cD.info.height = ch.info.height) (h2 : 2 ≤ ch.info.height) :
    updateDifficulty ops cD =
      ({ cD with info := { cD.info with
          difficulty := ch.info.difficulty } }, none) := by
  unfold updateDifficulty at hfix ⊢
  rw [if_neg (by omega)] at hfix
  rw [if_neg (by omega : ¬ cD.info.height < 2)]
  unfold getPreviousNBlockHeaders at hfix ⊢
  rw [hh, prevNHeaders_congr cD.db ch.db hdb]
  cases hp : prevNHeaders ch.db ch.info.height 750 0 with
  | error e => rw [hp] at hfix; simp at hfix
  | ok hs =>
    rw [hp] at hfix
    dsimp only at hfix
    dsimp only
    have hd := congrArg (fun p => (Prod.fst p).info.difficulty) hfix
    dsimp at hd
    rw [hd]

theorem updateLimits_fix_congr {F : Type} (ops : FloatOps F) (ch cD : Chain F)
    (hfix : updateEntryDifficultyLimits ops ch = (ch, none))
    (hdb : ∀ k, dbGet cD.db k = dbGet ch.db k)
    (hh : cD.info.height = ch.info.height) (h2 : 2 ≤ ch.info.height) :
    updateEntryDifficultyLimits ops cD =
      ({ cD with info := { cD.info with
          entry_difficulty_multiplier := ch.info.entry_difficulty_multiplier,
          max_allowed_entry_difficulty := ch.info.max_allowed_entry_difficulty } },
       none) := by
  unfold updateEntryDifficultyLimits at hfix ⊢
  rw [if_neg (by omega)] at hfix
  rw [if_neg (by omega : ¬ cD.info.height < 2)]
  unfold getPreviousNBlockHeaders at hfix ⊢
  rw [hh, prevNHeaders_congr cD.db ch.db hdb]
  cases hp : prevNHeaders ch.db ch.info.height 750 0 with
  | error e => rw [hp] at hfix; simp at hfix
  | ok hs =>
    rw [hp] at hfix
    dsimp only at hfix
    dsimp only
    have hm := congrArg (fun p => (Prod.fst p).info.entry_difficulty_multiplier) hfix
    have hx := congrArg (fun p => (Prod.fst p).info.max_allowed_entry_difficulty) hfix
    dsimp at hm hx
    rw [hm, hx]

theorem runControllers_congr_fix {F : Type} (ops : FloatOps F) (ch cD : Chain F)
    (hfixM : updateMedianTimestamp ch = (ch, none))
    (hfixD : updateDifficulty ops ch = (ch, none))
    (hfixL : updateEntryDifficultyLimits ops ch = (ch, none))
    (hdb : ∀ k, dbGet cD.db k = dbGet ch.db k)
    (hh : cD.info.height = ch.info.height) (h2 : 2 ≤ ch.info.height) :
    runControllers ops cD =
      ({ cD with info := { cD.info with
          past_median_timestamp := ch.info.past_median_timestamp,
          difficulty := ch.info.difficulty,
          entry_difficulty_multiplier := ch.info.entry_difficulty_multiplier,
          max_allowed_entry_difficulty := ch.info.max_allowed_entry_difficulty } },
       none) := by
  have hm := updateMedian_fix_congr ch cD hfixM hdb hh (by omega)
  unfold runControllers
  rw [hm]
  dsimp only
  have hd := updateDifficulty_fix_congr ops ch
    ({ cD with info := { cD.info with
        past_median_timestamp := ch.info.past_median_timestamp } })
    hfixD hdb hh h2
  rw [hd]
  dsimp only
  have hl := updateLimits_fix_congr ops ch
    ({ cD with info := { cD.info with
        past_median_timestamp := ch.info.past_median_timestamp,
        difficulty := ch.info.difficulty } })
    hfixL hdb hh h2
  rw [hl]

theorem updateMedian_preserves {F : Type} (c r : Chain F) (e : Option ChainErr)
    (h : updateMedianTimestamp c = (r, e)) :
    r.db = c.db ∧ r.cacheKey = c.cacheKey ∧ r.info.height = c.info.height ∧
    r.info.top_block_hash = c.info.top_block_hash ∧
    r.info.is_empty = c.info.is_empty ∧
    r.info.network_adjusted_time = c.info.network_adjusted_time ∧
    r.info.randomx_vm_key = c.info.randomx_vm_key ∧
    r.info.block_size_cap = c.info.block_size_cap := by
  unfold updateMedianTimestamp at h
  split at h
  · injection h with ha hb
    subst ha
    exact ⟨rfl, rfl, rfl, rfl, rfl, rfl, rfl, rfl⟩
  · split at h
    · injection h with ha hb
      subst ha
      exact ⟨rfl, rfl, rfl, rfl, rfl, rfl, rfl, rfl⟩
    · split at h
      · injection h with ha hb
        subst ha
        exact ⟨rfl, rfl, rfl, rfl, rfl, rfl, rfl, rfl⟩
      · injection h with ha hb
        subst ha
        exact ⟨rfl, rfl, rfl, rfl, rfl, rfl, rfl, rfl⟩

theorem updateDifficulty_preserves {F : Type} (ops : FloatOps F) (c r : Chain F)
    (e : Option ChainErr) (h : updateDifficulty ops c = (r, e)) :
    r.db = c.db ∧ r.cacheKey = c.cacheKey ∧ r.info.height = c.info.height ∧
    r.info.top_block_hash = c.info.top_block_hash ∧
    r.info.is_empty = c.info.is_empty ∧
    r.info.network_adjusted_time = c.info.network_adjusted_time ∧
    r.info.randomx_vm_key = c.info.randomx_vm_key ∧
    r.info.block_size_cap = c.info.block_size_cap := by
  unfold updateDifficulty at h
  split at h
  · injection h with ha hb
    subst ha
    exact ⟨rfl, rfl, rfl, rfl, rfl, rfl, rfl, rfl⟩
  · split at h
    · injection h with ha hb
      subst ha
      exact ⟨rfl, rfl, rfl, rfl, rfl, rfl, rfl, rfl⟩
    · injection h with ha hb
      subst ha
      exact ⟨rfl, rfl, rfl, rfl, rfl, rfl, rfl, rfl⟩

theorem updateLimits_preserves {F : Type} (ops : FloatOps F) (c r : Chain F)
    (e : Option ChainErr) (h : updateEntryDifficultyLimits ops c = (r, e)) :
    r.db = c.db ∧ r.cacheKey = c.cacheKey ∧ r.info.height = c.info.height ∧
    r.info.top_block_hash = c.info.top_block_hash ∧
    r.info.is_empty = c.info.is_empty ∧
    r.info.network_adjusted_time = c.info.network_adjusted_time ∧
    r.info.randomx_vm_key = c.info.randomx_vm_key ∧
    r.info.block_size_cap = c.info.block_size_cap := by
  unfold updateEntryDifficultyLimits at h
  split at h
  · injection h with ha hb
    subst ha
    exact ⟨rfl, rfl, rfl, rfl, rfl, rfl, rfl, rfl⟩
  · split at h
    · injection h with ha hb
      subst ha
      exact ⟨rfl, rfl, rfl, rfl, rfl, rfl, rfl, rfl⟩
    · injection h with ha hb
      subst ha
      exact ⟨rfl, rfl, rfl, rfl, rfl, rfl, rfl, rfl⟩

theorem runControllers_preserves {F : Type} (ops : FloatOps F) (c r : Chain F)
    (e : Option ChainErr) (h : runControllers ops c = (r, e)) :
    r.db = c.db ∧ r.cacheKey = c.cacheKey ∧ r.info.height = c.info.height ∧
    r.info.top_block_hash = c.info.top_block_hash ∧
    r.info.is_empty = c.info.is_empty ∧
    r.info.network_adjusted_time = c.info.network_adjusted_time ∧
    r.info.randomx_vm_key = c.info.randomx_vm_key ∧
    r.info.block_size_cap = c.info.block_size_cap := by
  unfold runControllers at h
  rcases hm : updateMedianTimestamp c with ⟨c1, e1⟩
  rw [hm] at h
  have p1 := updateMedian_preserves c c1 e1 hm
  cases e1 with
  | some e1 =>
    dsimp only at h
    injection h with ha hb
    subst ha
    exact p1
  | none =>
    dsimp only at h
    rcases hd : updateDifficulty ops c1 with ⟨c2, e2⟩
    rw [hd] at h
    have p2 := updateDifficulty_preserves ops c1 c2 e2 hd
    cases e2 with
    | some e2 =>
      dsimp only at h
      injection h with ha hb
      subst ha
      exact ⟨p2.1.trans p1.1, p2.2.1.trans p1.2.1, p2.2.2.1.trans p1.2.2.1,
        p2.2.2.2.1.trans p1.2.2.2.1, p2.2.2.2.2.1.trans p1.2.2.2.2.1,
        p2.2.2.2.2.2.1.trans p1.2.2.2.2.2.1,
        p2.2.2.2.2.2.2.1.trans p1.2.2.2.2.2.2.1,
        p2.2.2.2.2.2.2.2.trans p1.2.2.2.2.2.2.2⟩
    | none =>
      dsimp only at h
      have p3 := updateLimits_preserves ops c2 r e h
      exact ⟨(p3.1.trans p2.1).trans p1.1, (p3.2.1.trans p2.2.1).trans p1.2.1,
        (p3.2.2.1.trans p2.2.2.1).trans p1.2.2.1,
        (p3.2.2.2.1.trans p2.2.2.2.1).trans p1.2.2.2.1,
        (p3.2.2.2.2.1.trans p2.2.2.2.2.1).trans p1.2.2.2.2.1,
        (p3.2.2.2.2.2.1.trans p2.2.2.2.2.2.1).trans p1.2.2.2.2.2.1,
        (p3.2.2.2.2.2.2.1.trans p2.2.2.2.2.2.2.1).trans p1.2.2.2.2.2.2.1,
        (p3.2.2.2.2.2.2.2.trans p2.2.2.2.2.2.2.2).trans p1.2.2.2.2.2.2.2⟩

theorem addBlock_ok_inv {F : Type} (ops : FloatOps F) (cr : Crypto) (cod : Codec F)
    (ch : Chain F) (b : Block F) (st' : Chain F)
    (h : addBlock ops cr cod ch b = some (st', none)) :
    b.header.height = ch.info.height + 1 ∧
    b.header.previous_hash = ch.info.top_block_hash ∧
    ∃ ls, entriesToBytes b.entries = .ok ls ∧
      applyBlock ops
        ⟨{ ch.info with
             height := ch.info.height + 1,
             top_block_hash := b.hash,
             is_empty := false },
         dbPut (dbPut (dbPut ch.db (makeKey 1 b.hash)
             (.raw (cod.encBlock ls b.header b.randomx_input b.hash)))
           (makeKey 3 (natToLE 8 b.header.height)) (.raw b.hash))
           (makeKey 2 b.hash) (.hdr b.header),
         ch.cacheKey⟩ = (st', none) := by
  by_cases hc1 : (getBlock cod ch.db b.hash).isOk
  · simp [addBlock, hc1] at h
  by_cases hc2 : ch.info.height + 1 < b.header.height
  · simp [addBlock, hc1, hc2] at h
  by_cases hc3 : b.header.height < ch.info.height + 1
  · simp [addBlock, hc1, hc2, hc3] at h
  by_cases hc4 : b.header.previous_hash = ch.info.top_block_hash
  case neg => simp [addBlock, hc1, hc2, hc3, hc4] at h
  case pos =>
  by_cases hc5 : ops.beq b.header.difficulty_target ch.info.difficulty
  case neg => simp [addBlock, hc1, hc2, hc3, hc4, hc5] at h
  case pos =>
  by_cases hc6 : b.header.timestamp < ch.info.past_median_timestamp
  case pos => simp [addBlock, hc1, hc2, hc3, hc4, hc5, hc6] at h
  case neg =>
  by_cases hc7 : ch.info.network_adjusted_time + 3600 < b.header.timestamp
  case pos => simp [addBlock, hc1, hc2, hc3, hc4, hc5, hc6, hc7] at h
  case neg =>
  cases hdiff : b.difficulty ops cr with
  | error de => simp [addBlock, hc1, hc2, hc3, hc4, hc5, hc6, hc7, hdiff] at h
  | ok d =>
  by_cases hc8 : ops.blt d ch.info.difficulty
  case pos => simp [addBlock, hc1, hc2, hc3, hc4, hc5, hc6, hc7, hdiff, hc8] at h
  case neg =>
  cases hed : b.entryDifficulty ops cr with
  | error ee =>
    simp [addBlock, hc1, hc2, hc3, hc4, hc5, hc6, hc7, hdiff, hc8, hed] at h
  | ok ed =>
  by_cases hc9 : ops.beq b.header.entry_difficulty ed
  case neg =>
    simp [addBlock, hc1, hc2, hc3, hc4, hc5, hc6, hc7, hdiff, hc8, hed, hc9] at h
  case pos =>
  by_cases hc10 : ops.beq b.header.max_allowed_entry_difficulty
      ch.info.max_allowed_entry_difficulty
  case neg =>
    simp [addBlock, hc1, hc2, hc3, hc4, hc5, hc6, hc7, hdiff, hc8, hed, hc9, hc10] at h
  case pos =>
  cases hls : entriesToBytes b.entries with
  | error le =>
    have hm : b.isMerkleRootValid cr = none := by
      unfold Block.isMerkleRootValid
      rw [hls]
    simp [addBlock, hc1, hc2, hc3, hc4, hc5, hc6, hc7, hdiff, hc8, hed, hc9, hc10,
      hm] at h
  | ok ls =>
  cases hmt : MerkleTreeL.new cr.merkleHash ls with
  | none =>
    have hm : b.isMerkleRootValid cr = none := by
      unfold Block.isMerkleRootValid
      rw [hls]
      dsimp only
      rw [hmt]
    simp [addBlock, hc1, hc2, hc3, hc4, hc5, hc6, hc7, hdiff, hc8, hed, hc9, hc10,
      hm] at h
  | some t =>
  have hm : b.isMerkleRootValid cr = some (t.root == b.header.merkle_root) := by
    unfold Block.isMerkleRootValid
    rw [hls]
    dsimp only
    rw [hmt]
  cases hroot : t.root == b.header.merkle_root with
  | false =>
    rw [hroot] at hm
    simp [addBlock, hc1, hc2, hc3, hc4, hc5, hc6, hc7, hdiff, hc8, hed, hc9, hc10,
      hm] at h
  | true =>
  rw [hroot] at hm
  have htb : b.toBytesB cod =
      .ok (cod.encBlock ls b.header b.randomx_input b.hash) := by
    unfold Block.toBytesB
    rw [hls]
  by_cases hc11 : ch.info.block_size_cap <
      (cod.encBlock ls b.header b.randomx_input b.hash).length
  case pos =>
    simp [addBlock, hc1, hc2, hc3, hc4, hc5, hc6, hc7, hdiff, hc8, hed, hc9, hc10,
      hm, htb, hc11] at h
  case neg =>
  cases hsig : b.checkSignature cr ch.db with
  | error se =>
    simp [addBlock, hc1, hc2, hc3, hc4, hc5, hc6, hc7, hdiff, hc8, hed, hc9, hc10,
      hm, htb, hc11, hsig] at h
  | ok u =>
  by_cases hc13 : Block.calcHash ops cr b = b.hash
  case neg =>
    simp [addBlock, hc1, hc2, hc3, hc4, hc5, hc6, hc7, hdiff, hc8, hed, hc9, hc10,
      hm, htb, hc11, hsig, hc13] at h
  case pos =>
  have hAB : addBlock ops cr cod ch b = some (applyBlock ops
      ⟨{ ch.info with
           height := ch.info.height + 1,
           top_block_hash := b.hash,
           is_empty := false },
       dbPut (dbPut (dbPut ch.db (makeKey 1 b.hash)
           (.raw (cod.encBlock ls b.header b.randomx_input b.hash)))
         (makeKey 3 (natToLE 8 b.header.height)) (.raw b.hash))
         (makeKey 2 b.hash) (.hdr b.header),
       ch.cacheKey⟩) := by
    simp [addBlock, hc1, hc2, hc3, hc4, hc5, hc6, hc7, hdiff, hc8, hed, hc9, hc10,
      hm, htb, hc11, hsig, hc13]
  rw [hAB] at h
  injection h with h
  exact ⟨by omega, hc4, ls, rfl, h⟩

theorem blockchainInfo_fields_ext {F : Type} (i j : BlockchainInfo F)
    (h1 : i.is_empty = j.is_empty) (h2 : i.top_block_hash = j.top_block_hash)
    (h3 : i.past_median_timestamp = j.past_median_timestamp)
    (h4 : i.network_adjusted_time = j.network_adjusted_time)
    (h5 : i.difficulty = j.difficulty) (h6 : i.randomx_vm_key = j.randomx_vm_key)
    (h7 : i.entry_difficulty_multiplier = j.entry_difficulty_multiplier)
    (h8 : i.max_allowed_entry_difficulty = j.max_allowed_entry_difficulty)
    (h9 : i.block_size_cap = j.block_size_cap) (h10 : i.height = j.height) :
    i = j := by
  cases i
  cases j
  simp_all

/-- Claim C4 (amended): for a chain state that looks like a reachable
non-empty state — `is_empty` already cleared, height at least 2, the three
controllers at a fixpoint, the candidate's three store records fresh, and
the epoch key consistent with the epoch schedule — a successful
`add_block(B)` followed by `del_top_block()` restores `chain_info` exactly.
On the genuinely empty chain the claim fails (`is_empty` is never reset),
and at height < 2 the difficulty recomputed by the append is not rolled
back because the rollback skips the controllers. -/
theorem add_del_restores_info {F : Type} (ops : FloatOps F) (cr : Crypto)
    (cod : Codec F) (ch : Chain F) (b : Block F) (st' : Chain F)
    (hAdd : addBlock ops cr cod ch b = some (st', none))
    (hEmpty : ch.info.is_empty = false)
    (h2 : 2 ≤ ch.info.height)
    (hHgt : ch.info.height + 1 < 2 ^ 64)
    (hFixM : updateMedianTimestamp ch = (ch, none))
    (hFixD : updateDifficulty ops ch = (ch, none))
    (hFixL : updateEntryDifficultyLimits ops ch = (ch, none))
    (hFresh1 : dbGet ch.db (makeKey 1 b.hash) = none)
    (hFresh2 : dbGet ch.db (makeKey 2 b.hash) = none)
    (hFresh3 : dbGet ch.db (makeKey 3 (natToLE 8 (ch.info.height + 1))) = none)
    (hEpoch : (ch.info.height + 1) % RANDOMX_VM_KEY_LIFETIME = 0 →
      (if ch.info.height + 1 = RANDOMX_VM_KEY_LIFETIME then
         ch.info.randomx_vm_key = List.replicate 32 0
       else ∃ old, getBlockHash ch.db
           (ch.info.height + 1 - RANDOMX_VM_KEY_LIFETIME) = .ok old ∧
         old.length = 32 ∧ old = ch.info.randomx_vm_key)) :
    ∃ st'', delTopBlock ops st' = some (st'', none) ∧ st''.info = ch.info := by
  obtain ⟨hbh, hprev, ls, hls, happ⟩ := addBlock_ok_inv ops cr cod ch b st' hAdd
  set postDb := dbPut (dbPut (dbPut ch.db (makeKey 1 b.hash)
      (.raw (cod.encBlock ls b.header b.randomx_input b.hash)))
    (makeKey 3 (natToLE 8 b.header.height)) (.raw b.hash))
    (makeKey 2 b.hash) (.hdr b.header) with hpostDb
  have hget3 : dbGet postDb (makeKey 3 (natToLE 8 b.header.height)) =
      some (.raw b.hash) := by
    rw [hpostDb,
      dbGet_put_other _ _ _ _ (makeKey_ne_of_tag _ _ (by decide)),
      dbGet_put_same]
  have hget2 : dbGet postDb (makeKey 2 b.hash) = some (.hdr b.header) := by
    rw [hpostDb, dbGet_put_same]
  unfold applyBlock at happ
  rcases hrc : runControllers ops
      (⟨{ ch.info with
            height := ch.info.height + 1,
            top_block_hash := b.hash,
            is_empty := false },
        postDb, ch.cacheKey⟩ : Chain F) with ⟨c2, oe⟩
  rw [hrc] at happ
  dsimp only at happ
  cases oe with
  | some e =>
    injection happ with ha hb
    exact absurd hb (by simp)
  | none =>
  replace happ : (if c2.info.height % RANDOMX_VM_KEY_LIFETIME = 0 then
      (({ c2 with
          info := { c2.info with randomx_vm_key := c2.info.top_block_hash },
          cacheKey := c2.info.top_block_hash } : Chain F), (none : Option ChainErr))
    else (c2, none)) = (st', none) := happ
  have hpres := runControllers_preserves ops _ c2 none hrc
  have hc2db : c2.db = postDb := hpres.1
  have hc2h : c2.info.height = ch.info.height + 1 := hpres.2.2.1
  have hc2top : c2.info.top_block_hash = b.hash := hpres.2.2.2.1
  have hc2emp : c2.info.is_empty = false := hpres.2.2.2.2.1
  have hc2nat : c2.info.network_adjusted_time = ch.info.network_adjusted_time :=
    hpres.2.2.2.2.2.1
  have hc2key : c2.info.randomx_vm_key = ch.info.randomx_vm_key :=
    hpres.2.2.2.2.2.2.1
  have hc2cap : c2.info.block_size_cap = ch.info.block_size_cap :=
    hpres.2.2.2.2.2.2.2
  -- facts about the store after the rollback's three deletes
  have hdb3 : ∀ (sdb : Db F), sdb = postDb → ∀ k,
      dbGet (dbDel (dbDel (dbDel sdb (makeKey 3 (natToLE 8 b.header.height)))
        (makeKey 2 b.hash)) (makeKey 1 b.hash)) k = dbGet ch.db k := by
    intro sdb hsdb k
    subst hsdb
    by_cases hk1 : k = makeKey 1 b.hash
    · subst hk1
      rw [dbGet_del_same, hFresh1]
    · rw [dbGet_del_other _ _ _ hk1]
      by_cases hk2 : k = makeKey 2 b.hash
      · subst hk2
        rw [dbGet_del_same, hFresh2]
      · rw [dbGet_del_other _ _ _ hk2]
        by_cases hk3 : k = makeKey 3 (natToLE 8 b.header.height)
        · subst hk3
          rw [dbGet_del_same]
          rw [hbh]
          exact hFresh3.symm
        · rw [dbGet_del_other _ _ _ hk3, hpostDb,
            dbGet_put_other _ _ _ _ hk2, dbGet_put_other _ _ _ _ hk3,
            dbGet_put_other _ _ _ _ hk1]
  by_cases hmod : c2.info.height % RANDOMX_VM_KEY_LIFETIME = 0
  · -- epoch rotation happened during the append
    rw [if_pos hmod] at happ
    injection happ with ha hb
    have hmod' : (ch.info.height + 1) % RANDOMX_VM_KEY_LIFETIME = 0 := by
      rw [← hc2h]; exact hmod
    have hEp := hEpoch hmod'
    subst ha
    -- the rolled state: db, info fields
    unfold delTopBlock
    have hsd : ({ c2 with
        info := { c2.info with randomx_vm_key := c2.info.top_block_hash },
        cacheKey := c2.info.top_block_hash } : Chain F).db = postDb := hc2db
    have hsh : ({ c2 with
        info := { c2.info with randomx_vm_key := c2.info.top_block_hash },
        cacheKey := c2.info.top_block_hash } : Chain F).info.height =
        ch.info.height + 1 := hc2h
    have hgbh : getBlockHash ({ c2 with
        info := { c2.info with randomx_vm_key := c2.info.top_block_hash },
        cacheKey := c2.info.top_block_hash } : Chain F).db
        ({ c2 with
        info := { c2.info with randomx_vm_key := c2.info.top_block_hash },
        cacheKey := c2.info.top_block_hash } : Chain F).info.height =
        .ok b.hash := by
      unfold getBlockHash
      rw [hsd, hsh, ← hbh, hget3]
    rw [hgbh]
    dsimp only
    have hgbhd : getBlockHeader ({ c2 with
        info := { c2.info with randomx_vm_key := c2.info.top_block_hash },
        cacheKey := c2.info.top_block_hash } : Chain F).db b.hash =
        .ok b.header := by
      unfold getBlockHeader
      rw [hsd, hget2]
    rw [hgbhd]
    dsimp only
    rw [if_neg (by omega)]
    rw [if_pos (by rw [hbh]; exact hmod')]
    by_cases hL : ch.info.height + 1 = RANDOMX_VM_KEY_LIFETIME
    · rw [if_neg (by rw [hbh, hL]; omega)]
      rw [if_pos hL] at hEp
      have hrun := runControllers_congr_fix ops ch
        (⟨{ is_empty := c2.info.is_empty,
            top_block_hash := b.header.previous_hash,
            past_median_timestamp := c2.info.past_median_timestamp,
            network_adjusted_time := c2.info.network_adjusted_time,
            difficulty := c2.info.difficulty,
            randomx_vm_key := List.replicate 32 0,
            entry_difficulty_multiplier := c2.info.entry_difficulty_multiplier,
            max_allowed_entry_difficulty := c2.info.max_allowed_entry_difficulty,
            block_size_cap := c2.info.block_size_cap,
            height := c2.info.height - 1 },
          dbDel (dbDel (dbDel c2.db (makeKey 3 (natToLE 8 b.header.height)))
            (makeKey 2 b.hash)) (makeKey 1 b.hash),
          c2.info.top_block_hash⟩ : Chain F)
        hFixM hFixD hFixL
        (fun k => hdb3 c2.db hc2db k)
        (by dsimp only; omega) h2
      rw [hrun]
      refine ⟨_, rfl, ?_⟩
      refine blockchainInfo_fields_ext _ _ ?_ ?_ rfl ?_ rfl ?_ rfl rfl ?_ ?_
      · dsimp only
        rw [hc2emp, hEmpty]
      · dsimp only
        rw [hprev]
      · dsimp only
        rw [hc2nat]
      · dsimp only
        rw [hEp]
      · dsimp only
        rw [hc2cap]
      · dsimp only
        omega
    · rw [if_neg hL] at hEp
      obtain ⟨old, hOld, hOldLen, hOldKey⟩ := hEp
      have hgt : 0 < b.header.height - RANDOMX_VM_KEY_LIFETIME := by
        rw [hbh]
        have hge : RANDOMX_VM_KEY_LIFETIME ≤ ch.info.height + 1 := by
          unfold RANDOMX_VM_KEY_LIFETIME at hmod' ⊢
          omega
        have : RANDOMX_VM_KEY_LIFETIME ∣ ch.info.height + 1 :=
          Nat.dvd_of_mod_eq_zero hmod'
        rcases this with ⟨q, hq⟩
        unfold RANDOMX_VM_KEY_LIFETIME at *
        omega
      rw [if_pos hgt]
      have hOld3 : getBlockHash (dbDel (dbDel (dbDel postDb
          (makeKey 3 (natToLE 8 b.header.height))) (makeKey 2 b.hash))
          (makeKey 1 b.hash)) (b.header.height - RANDOMX_VM_KEY_LIFETIME) =
          .ok old := by
        rw [getBlockHash_congr _ ch.db (hdb3 postDb rfl), hbh]
        exact hOld
      rw [show ({ c2 with
          info := { c2.info with randomx_vm_key := c2.info.top_block_hash },
          cacheKey := c2.info.top_block_hash } : Chain F).db = postDb from hc2db]
      rw [hOld3]
      dsimp only
      rw [if_pos hOldLen]
      have hrun := runControllers_congr_fix ops ch
        (⟨{ is_empty := c2.info.is_empty,
            top_block_hash := b.header.previous_hash,
            past_median_timestamp := c2.info.past_median_timestamp,
            network_adjusted_time := c2.info.network_adjusted_time,
            difficulty := c2.info.difficulty,
            randomx_vm_key := old,
            entry_difficulty_multiplier := c2.info.entry_difficulty_multiplier,
            max_allowed_entry_difficulty := c2.info.max_allowed_entry_difficulty,
            block_size_cap := c2.info.block_size_cap,
            height := c2.info.height - 1 },
          dbDel (dbDel (dbDel postDb (makeKey 3 (natToLE 8 b.header.height)))
            (makeKey 2 b.hash)) (makeKey 1 b.hash),
          c2.info.top_block_hash⟩ : Chain F)
        hFixM hFixD hFixL
        (fun k => hdb3 postDb rfl k)
        (by dsimp only; omega) h2
      rw [hrun]
      refine ⟨_, rfl, ?_⟩
      refine blockchainInfo_fields_ext _ _ ?_ ?_ rfl ?_ rfl ?_ rfl rfl ?_ ?_
      · dsimp only
        rw [hc2emp, hEmpty]
      · dsimp only
        rw [hprev]
      · dsimp only
        rw [hc2nat]
      · dsimp only
        rw [hOldKey]
      · dsimp only
        rw [hc2cap]
      · dsimp only
        omega
  · -- no epoch rotation
    rw [if_neg hmod] at happ
    injection happ with ha hb
    subst ha
    unfold delTopBlock
    have hgbh : getBlockHash c2.db c2.info.height = .ok b.hash := by
      unfold getBlockHash
      rw [hc2db, hc2h, ← hbh, hget3]
    rw [hgbh]
    dsimp only
    have hgbhd : getBlockHeader c2.db b.hash = .ok b.header := by
      unfold getBlockHeader
      rw [hc2db, hget2]
    rw [hgbhd]
    dsimp only
    rw [if_neg (by omega)]
    rw [if_neg (by rw [hbh, ← hc2h]; exact hmod)]
    have hrun := runControllers_congr_fix ops ch
      (⟨{ is_empty := c2.info.is_empty,
          top_block_hash := b.header.previous_hash,
          past_median_timestamp := c2.info.past_median_timestamp,
          network_adjusted_time := c2.info.network_adjusted_time,
          difficulty := c2.info.difficulty,
          randomx_vm_key := c2.info.randomx_vm_key,
          entry_difficulty_multiplier := c2.info.entry_difficulty_multiplier,
          max_allowed_entry_difficulty := c2.info.max_allowed_entry_difficulty,
          block_size_cap := c2.info.block_size_cap,
          height := c2.info.height - 1 },
        dbDel (dbDel (dbDel c2.db (makeKey 3 (natToLE 8 b.header.height)))
          (makeKey 2 b.hash)) (makeKey 1 b.hash),
        c2.cacheKey⟩ : Chain F)
      hFixM hFixD hFixL
      (fun k => hdb3 c2.db hc2db k)
      (by dsimp only; omega) h2
    rw [hrun]
    refine ⟨_, rfl, ?_⟩
    refine blockchainInfo_fields_ext _ _ ?_ ?_ rfl ?_ rfl ?_ rfl rfl ?_ ?_
    · dsimp only
      rw [hc2emp, hEmpty]
    · dsimp only
      rw [hprev]
    · dsimp only
      rw [hc2nat]
    · dsimp only
      rw [hc2key]
    · dsimp only
      rw [hc2cap]
    · dsimp only
      omega

/-- Claim C4 (counterexample): `add_block(B); del_top_block()` does not
restore `chain_info` bytewise from every state.  First run: on the empty
chain both calls succeed but the restored info differs — `is_empty` was set
to `false` by the append and nothing resets it.  Second run: from a chain
at height 1 both calls succeed but `difficulty` (and the entry-difficulty
limits) keep the values recomputed by the append, because the rollback
skips the controllers below height 2. -/
theorem add_del_rollback_counterexamples :
    ((addBlock ratOps c1cr c1cod st1 b1).bind (fun p =>
        (delTopBlock ratOps p.1).map (fun q =>
          (p.2, q.2, decide (q.1.info = st1.info), q.1.info.is_empty,
           st1.info.is_empty)))) = some (none, none, false, false, true) ∧
    ((addBlock ratOps c1cr c1cod st3 b3).bind (fun p =>
        (delTopBlock ratOps p.1).map (fun q =>
          (p.2, q.2, decide (q.1.info = st3.info),
           decide (q.1.info.difficulty = st3.info.difficulty))))) =
      some (none, none, false, false) := by
  decide

theorem add_del_restores_info_witness :
    addBlock ratOps c1cr c1cod st2 b2 = some (st2', none) ∧
    ∃ st'', delTopBlock ratOps st2' = some (st'', none) ∧ st''.info = st2.info :=
  ⟨by decide,
   add_del_restores_info ratOps c1cr c1cod st2 b2 st2' (by decide) (by decide)
     (by decide) (by decide) (by decide) (by decide) (by decide) (by decide)
     (by decide) (by decide) (fun hmod => absurd hmod (by decide))⟩
